import Mathlib

/-!
Verification development for the `fastapiex-settings` repository.

Shallow embedding of the modules `live_config.py`, `control_convergence.py`,
`registry.py`, `path_lookup.py`, `env_keypath.py`, `env_value_parser.py` and
`controls.py`: Python dictionaries are modelled as association lists with
dict-key semantics (lookup of the first entry with an equal key; insertion
replaces in place, otherwise appends), deep copies are the identity on the
immutable Lean values, and `casefold`/`lower`/`upper` are modelled by
`String.toLower`/`String.toUpper` (they agree on the ASCII data the claims
exercise).
-/

set_option maxHeartbeats 1000000
set_option linter.unusedSectionVars false

namespace FastapiexSettings

/-! ## Association-list dictionaries (model of Python `dict`) -/

section Dict

variable {K A : Type} [DecidableEq K]

/-- Embedding of `d[k]` lookup: first entry whose key equals `k`. -/
def dictLookup : List (K × A) → K → Option A
  | [], _ => none
  | (k', a) :: rest, k => if k = k' then some a else dictLookup rest k

/-- Embedding of `k in d`. -/
def dictMem (d : List (K × A)) (k : K) : Bool := (dictLookup d k).isSome

/-- Whether some entry carries key `k`. -/
def dictHasKey (d : List (K × A)) (k : K) : Bool := d.any (fun p => decide (p.1 = k))

/-- Embedding of `d[k] = a`: replace the value in place when the key exists, else append. -/
def dictInsert (d : List (K × A)) (k : K) (a : A) : List (K × A) :=
  if dictHasKey d k then d.map (fun p => if p.1 = k then (p.1, a) else p) else d ++ [(k, a)]

/-- Embedding of `d1.update(d2)`. -/
def dictUpdate (d1 d2 : List (K × A)) : List (K × A) :=
  d2.foldl (fun acc p => dictInsert acc p.1 p.2) d1

/-- Embedding of `del d[k]`. -/
def dictErase (d : List (K × A)) (k : K) : List (K × A) := d.filter (fun p => p.1 ≠ k)

/-- Python `dict.__eq__`: the two dictionaries agree on every lookup. -/
def dictEqB [DecidableEq A] (d1 d2 : List (K × A)) : Bool :=
  d1.all (fun p => dictLookup d1 p.1 == dictLookup d2 p.1) &&
  d2.all (fun p => dictLookup d1 p.1 == dictLookup d2 p.1)

theorem dictHasKey_eq_false {d : List (K × A)} {k : K} (h : dictHasKey d k = false) :
    dictLookup d k = none := by
  induction d with
  | nil => rfl
  | cons p rest ih =>
    simp only [dictHasKey, List.any_cons, Bool.or_eq_false_iff, decide_eq_false_iff_not] at h
    obtain ⟨h1, h2⟩ := h
    obtain ⟨k', a⟩ := p
    simp only [dictLookup]
    rw [if_neg (by simpa using fun hk => h1 hk.symm)]
    exact ih h2

theorem dictLookup_append (d1 d2 : List (K × A)) (k : K) :
    dictLookup (d1 ++ d2) k =
      match dictLookup d1 k with
      | some a => some a
      | none => dictLookup d2 k := by
  induction d1 with
  | nil => simp [dictLookup]
  | cons p rest ih =>
    obtain ⟨k0, a0⟩ := p
    by_cases h : k = k0 <;> simp [dictLookup, h, ih]

theorem dictLookup_mapReplace (d : List (K × A)) (k : K) (a : A) (k' : K) :
    dictLookup (d.map (fun p => if p.1 = k then (p.1, a) else p)) k' =
      if k' = k then (if dictHasKey d k then some a else none)
      else dictLookup d k' := by
  induction d with
  | nil => by_cases h : k' = k <;> simp [dictLookup, dictHasKey, h]
  | cons p rest ih =>
    obtain ⟨k0, a0⟩ := p
    simp only [List.map_cons]
    by_cases h0 : k0 = k
    · rw [if_pos h0]
      by_cases h' : k' = k0
      · subst h'
        simp [dictLookup, dictHasKey, h0]
      · have hkk : ¬ k' = k := fun h => h' (h.trans h0.symm)
        simp [dictLookup, if_neg h', if_neg hkk, ih]
    · rw [if_neg h0]
      by_cases h' : k' = k0
      · subst h'
        have hkk : ¬ k' = k := h0
        simp [dictLookup, if_neg hkk]
      · simp only [dictLookup, if_neg h', ih, dictHasKey, List.any_cons]
        have hd : decide (k0 = k) = false := by simp [h0]
        simp only [hd, Bool.false_or]

theorem dictLookup_dictInsert (d : List (K × A)) (k : K) (a : A) (k' : K) :
    dictLookup (dictInsert d k a) k' = if k' = k then some a else dictLookup d k' := by
  unfold dictInsert
  by_cases hk : dictHasKey d k = true
  · rw [if_pos hk, dictLookup_mapReplace, hk]
    simp
  · rw [if_neg hk, dictLookup_append]
    have hnone := dictHasKey_eq_false (by simpa using hk)
    by_cases h' : k' = k
    · subst h'
      simp [hnone, dictLookup]
    · cases hv : dictLookup d k' with
      | some a0 => simp [hv, h']
      | none => simp [hv, h', dictLookup]

theorem dictLookup_dictErase (d : List (K × A)) (k k' : K) :
    dictLookup (dictErase d k) k' = if k' = k then none else dictLookup d k' := by
  induction d with
  | nil => by_cases h : k' = k <;> simp [dictErase, dictLookup, h]
  | cons p rest ih =>
    obtain ⟨k0, a0⟩ := p
    unfold dictErase at ih ⊢
    simp only [List.filter_cons]
    by_cases h0 : k0 = k
    · rw [if_neg (by simp [h0])]
      rw [ih]
      by_cases h' : k' = k0
      · simp [h', h0]
      · have hne : ¬ k' = k := fun h => h' (h.trans h0.symm)
        simp [dictLookup, hne, h']
    · rw [if_pos (by simp [h0])]
      by_cases h' : k' = k0
      · subst h'
        simp [dictLookup, h0]
      · simp only [dictLookup, if_neg h']
        exact ih

theorem dictLookup_some_exists_mem {d : List (K × A)} {k : K} {a : A}
    (h : dictLookup d k = some a) : (k, a) ∈ d := by
  induction d with
  | nil => simp [dictLookup] at h
  | cons p rest ih =>
    obtain ⟨k0, a0⟩ := p
    simp only [dictLookup] at h
    by_cases h' : k = k0
    · rw [if_pos h'] at h
      cases h
      exact h' ▸ List.mem_cons_self _ _
    · rw [if_neg h'] at h
      exact List.mem_cons_of_mem _ (ih h)

theorem dictLookup_isSome_of_mem {d : List (K × A)} {p : K × A} (h : p ∈ d) :
    (dictLookup d p.1).isSome := by
  induction d with
  | nil => simp at h
  | cons q rest ih =>
    obtain ⟨k0, a0⟩ := q
    rcases List.mem_cons.mp h with h | h
    · subst h; simp [dictLookup]
    · simp only [dictLookup]
      by_cases h' : p.1 = k0
      · simp [h']
      · rw [if_neg h']
        exact ih h

theorem dictEqB_lookup [DecidableEq A] {d1 d2 : List (K × A)}
    (h : dictEqB d1 d2 = true) (k : K) : dictLookup d1 k = dictLookup d2 k := by
  simp only [dictEqB, Bool.and_eq_true, List.all_eq_true, beq_iff_eq] at h
  obtain ⟨h1, h2⟩ := h
  cases hv1 : dictLookup d1 k with
  | some a => exact (hv1 ▸ h1 (k, a) (dictLookup_some_exists_mem hv1) : _)
  | none =>
    cases hv2 : dictLookup d2 k with
    | none => rfl
    | some a =>
      have := h2 (k, a) (dictLookup_some_exists_mem hv2)
      rw [hv1, hv2] at this
      exact this

theorem dictLookup_filter {d : List (K × A)} {k : K} {a : A} {p : K × A → Bool}
    (h : dictLookup d k = some a) (hp : p (k, a) = true) :
    dictLookup (d.filter p) k = some a := by
  induction d with
  | nil => simp [dictLookup] at h
  | cons q rest ih =>
    obtain ⟨k0, a0⟩ := q
    simp only [dictLookup] at h
    by_cases h' : k = k0
    · subst h'
      rw [if_pos rfl] at h
      cases h
      simp [List.filter_cons, hp, dictLookup]
    · rw [if_neg h'] at h
      simp only [List.filter_cons]
      by_cases hq : p (k0, a0) = true
      · rw [if_pos hq]
        simp only [dictLookup]
        rw [if_neg h']
        exact ih h
      · rw [if_neg hq]
        exact ih h

theorem mapReplace_keys (d : List (K × A)) (k : K) (a : A) :
    (d.map (fun p => if p.1 = k then (p.1, a) else p)).map Prod.fst = d.map Prod.fst := by
  induction d with
  | nil => rfl
  | cons p rest ih =>
    simp only [List.map_cons, ih]
    by_cases h0 : p.1 = k <;> simp [h0]

/-- Keys of `dictInsert` stay duplicate-free. -/
theorem dictInsert_keys_nodup {d : List (K × A)} (h : (d.map Prod.fst).Nodup)
    (k : K) (a : A) : ((dictInsert d k a).map Prod.fst).Nodup := by
  unfold dictInsert
  by_cases hk : dictHasKey d k = true
  · rw [if_pos hk, mapReplace_keys]
    exact h
  · rw [if_neg hk]
    rw [List.map_append]
    simp only [List.map_cons, List.map_nil]
    apply List.Nodup.append h (List.nodup_singleton k)
    intro x hx hy
    simp only [List.mem_singleton] at hy
    subst hy
    obtain ⟨p, hp, hpk⟩ := List.mem_map.mp hx
    have : dictHasKey d x = true := by
      simp only [dictHasKey, List.any_eq_true, decide_eq_true_eq]
      exact ⟨p, hp, hpk⟩
    simp [this] at hk

theorem dictUpdate_keys_nodup {d1 : List (K × A)} (h : (d1.map Prod.fst).Nodup)
    (d2 : List (K × A)) : ((dictUpdate d1 d2).map Prod.fst).Nodup := by
  induction d2 generalizing d1 with
  | nil => exact h
  | cons p rest ih =>
    simp only [dictUpdate, List.foldl_cons] at ih ⊢
    exact ih (dictInsert_keys_nodup h p.1 p.2)

end Dict

/-! ## `live_config.py`: the layered LWW store

Nested Python mappings are modelled by `NVal`: a `node` is a `Mapping`, a
`leaf` any non-mapping value (the leaf payload type `V` is a parameter).
Source names (`"yaml"`, `"dotenv"`, `"env"`) are the closed `Src` type; the
spec calls `yaml` the `file` source.  A slot (`dict[SourceName, _SourceValue]`)
is a record of three optional entries, one per source, which matches Python
dict equality on the closed key set. -/

inductive NVal (V : Type) where
  | leaf (v : V)
  | node (entries : List (String × NVal V))

mutual

def NVal.decEq {V : Type} [DecidableEq V] : (a b : NVal V) → Decidable (a = b)
  | .leaf x, .leaf y =>
    match inferInstanceAs (Decidable (x = y)) with
    | isTrue h => isTrue (by rw [h])
    | isFalse h => isFalse (fun hh => h (by injection hh))
  | .leaf _, .node _ => isFalse (fun hh => NVal.noConfusion hh)
  | .node _, .leaf _ => isFalse (fun hh => NVal.noConfusion hh)
  | .node es1, .node es2 =>
    match NVal.decEqEntries es1 es2 with
    | isTrue h => isTrue (by rw [h])
    | isFalse h => isFalse (fun hh => h (by injection hh))

def NVal.decEqEntries {V : Type} [DecidableEq V] :
    (a b : List (String × NVal V)) → Decidable (a = b)
  | [], [] => isTrue rfl
  | [], _ :: _ => isFalse (fun hh => List.noConfusion hh)
  | _ :: _, [] => isFalse (fun hh => List.noConfusion hh)
  | (k1, v1) :: r1, (k2, v2) :: r2 =>
    match inferInstanceAs (Decidable (k1 = k2)) with
    | isFalse h =>
      isFalse (fun hh => by
        injection hh with h1 h2
        exact h (congrArg Prod.fst h1))
    | isTrue hk =>
      match NVal.decEq v1 v2 with
      | isFalse h =>
        isFalse (fun hh => by
          injection hh with h1 h2
          exact h (congrArg Prod.snd h1))
      | isTrue hv =>
        match NVal.decEqEntries r1 r2 with
        | isFalse h => isFalse (fun hh => by injection hh with h1 h2; exact h h2)
        | isTrue hr => isTrue (by rw [hk, hv, hr])

end

instance {V : Type} [DecidableEq V] : DecidableEq (NVal V) := NVal.decEq

instance {V : Type} : Inhabited (NVal V) := ⟨.node []⟩

/-- Embedding of `SourceName` with `_SOURCE_PRIORITY = {yaml: 1, dotenv: 2, env: 3}`. -/
inductive Src where
  | yaml
  | dotenv
  | env
deriving DecidableEq, Repr

def Src.priority : Src → Nat
  | .yaml => 1
  | .dotenv => 2
  | .env => 3

/-- Embedding of `_SOURCE_ORDER`: sources sorted by ascending priority. -/
def sourceOrder : List Src := [.yaml, .dotenv, .env]

/-- Embedding of `_SourceValue(rev, value)`. -/
structure SourceValue (W : Type) where
  rev : Nat
  value : W
deriving DecidableEq

/-- One slot: `dict[SourceName, _SourceValue]` over the closed source set. -/
structure Slot (W : Type) where
  yaml : Option (SourceValue W) := none
  dotenv : Option (SourceValue W) := none
  env : Option (SourceValue W) := none
deriving DecidableEq

instance {W : Type} : Inhabited (Slot W) := ⟨{}⟩

namespace Slot

variable {W : Type}

def get (sl : Slot W) : Src → Option (SourceValue W)
  | .yaml => sl.yaml
  | .dotenv => sl.dotenv
  | .env => sl.env

/-- Embedding of `slot[source] = sv`. -/
def set (sl : Slot W) : Src → SourceValue W → Slot W
  | .yaml, sv => { sl with yaml := some sv }
  | .dotenv, sv => { sl with dotenv := some sv }
  | .env, sv => { sl with env := some sv }

/-- Embedding of `slot.pop(source, None)`. -/
def pop (sl : Slot W) : Src → Slot W
  | .yaml => { sl with yaml := none }
  | .dotenv => { sl with dotenv := none }
  | .env => { sl with env := none }

/-- Embedding of `not slot` (the dict is empty). -/
def isEmpty (sl : Slot W) : Bool :=
  sl.yaml.isNone && sl.dotenv.isNone && sl.env.isNone

/-- Embedding of `slot.items()` in the canonical source order.  The Python insertion order
may differ, but `_pick_winner` compares slots with a strict `>` on metas whose
priority components are pairwise distinct, so the chosen maximum does not
depend on the iteration order. -/
def entries (sl : Slot W) : List (Src × SourceValue W) :=
  ((sl.yaml.map (Src.yaml, ·)).toList) ++
  ((sl.dotenv.map (Src.dotenv, ·)).toList) ++
  ((sl.env.map (Src.env, ·)).toList)

end Slot

/-- A path: the tuple of string keys. -/
abbrev KPath := List String

section LiveConfig

variable {V : Type} [DecidableEq V]

/-- Embedding of `_flatten_mapping`: walk a nested mapping into `{path: value}`.  An empty
nested mapping is stored at its own path as the value `node []` (Python stores
`{}`); `dictUpdate` is `flat.update(nested)`. -/
def flattenEntries : List (String × NVal V) → KPath → List (KPath × NVal V)
  | [], _ => []
  | (k, v) :: rest, prefx =>
    let path := prefx ++ [k]
    let head : List (KPath × NVal V) :=
      match v with
      | .leaf x => [(path, .leaf x)]
      | .node [] => [(path, .node [])]
      | .node es =>
        let nested := flattenEntries es path
        if nested.isEmpty then [(path, .node [])] else nested
    dictUpdate head (flattenEntries rest prefx)

/-- Embedding of `slots.setdefault(path, {})[source] = SourceValue(rev, value)`. -/
def slotsWrite (slots : List (KPath × Slot (NVal V))) (p : KPath) (s : Src)
    (sv : SourceValue (NVal V)) : List (KPath × Slot (NVal V)) :=
  dictInsert slots p (((dictLookup slots p).getD {}).set s sv)

/-- One source's seeding / updating loop: write every flat entry with the
given revision (`_build_seed_slots` uses `rev = priority`,
`_apply_source_path_updates` a freshly allocated revision). -/
def slotsWriteAll (slots : List (KPath × Slot (NVal V))) (s : Src) (rev : Nat)
    (flat : List (KPath × NVal V)) : List (KPath × Slot (NVal V)) :=
  flat.foldl (fun acc pv => slotsWrite acc pv.1 s ⟨rev, pv.2⟩) slots

/-- The `reset` argument: `sources.get(source, {})` for the three sources. -/
structure SourcesMap (V : Type) where
  yaml : List (String × NVal V) := []
  dotenv : List (String × NVal V) := []
  env : List (String × NVal V) := []

def SourcesMap.get (S : SourcesMap V) : Src → List (String × NVal V)
  | .yaml => S.yaml
  | .dotenv => S.dotenv
  | .env => S.env

/-- Embedding of `_build_seed_slots`: seed sources in priority order, each stamped with
`rev = _SOURCE_PRIORITY[source]`. -/
def buildSeedSlots (S : SourcesMap V) : List (KPath × Slot (NVal V)) :=
  sourceOrder.foldl
    (fun slots s => slotsWriteAll slots s s.priority (flattenEntries (S.get s) []))
    []

/-- Embedding of `LiveConfigStore` state. -/
structure Store (V : Type) where
  slots : List (KPath × Slot (NVal V)) := []
  rev : Nat := 0
  version : Nat := 0
  cached : Option (List (String × NVal V)) := none

/-- Embedding of `max((value.rev for slot in slots for value in slot), default=0)`. -/
def slotMaxRev (sl : Slot (NVal V)) : Nat :=
  max (max ((sl.yaml.map (·.rev)).getD 0) ((sl.dotenv.map (·.rev)).getD 0))
    ((sl.env.map (·.rev)).getD 0)

def slotsMaxRev (slots : List (KPath × Slot (NVal V))) : Nat :=
  slots.foldl (fun m psl => max m (slotMaxRev psl.2)) 0

/-- Embedding of `LiveConfigStore.reset`. -/
def Store.reset (st : Store V) (S : SourcesMap V) : Bool × Store V :=
  let newSlots := buildSeedSlots S
  if dictEqB newSlots st.slots then (false, st)
  else
    (true,
      { slots := newSlots
        rev := slotsMaxRev newSlots
        version := st.version + 1
        cached := none })

/-- Embedding of `LiveConfigStore._current_source_values`. -/
def currentSourceValues (slots : List (KPath × Slot (NVal V))) (s : Src) :
    List (KPath × SourceValue (NVal V)) :=
  slots.filterMap (fun psl => (psl.2.get s).map (psl.1, ·))

/-- Embedding of `LiveConfigStore._diff_source_update`: paths to remove and the updated
path/value pairs for one source (`deepcopy` is the identity here). -/
def diffSourceUpdate (st : Store V) (s : Src) (mapping : List (String × NVal V)) :
    List KPath × List (KPath × NVal V) :=
  let nextFlat := flattenEntries mapping []
  let current := currentSourceValues st.slots s
  let removed := current.filterMap
    (fun pv => if dictMem nextFlat pv.1 then none else some pv.1)
  let updated := nextFlat.filterMap
    (fun pv =>
      match dictLookup current pv.1 with
      | none => some pv
      | some existing => if existing.value ≠ pv.2 then some pv else none)
  (removed, updated)

/-- The `replace_sources` argument (a dict from source name to mapping). -/
structure UpdatesMap (V : Type) where
  yaml : Option (List (String × NVal V)) := none
  dotenv : Option (List (String × NVal V)) := none
  env : Option (List (String × NVal V)) := none

def UpdatesMap.get (u : UpdatesMap V) : Src → Option (List (String × NVal V))
  | .yaml => u.yaml
  | .dotenv => u.dotenv
  | .env => u.env

/-- Embedding of `LiveConfigStore._plan_source_updates`.  The Python loop follows the
caller dict's insertion order; since each diff is taken against the untouched
pre-state and the consumers re-sort the touched sources canonically, iterating
in the canonical order is equivalent.  Unknown sources cannot occur because
`Src` is the closed source set (`_validate_update_sources`). -/
def planSourceUpdates (st : Store V) (u : UpdatesMap V) :
    List (Src × List KPath × List (KPath × NVal V)) :=
  sourceOrder.filterMap (fun s =>
    (u.get s).bind (fun mapping =>
      let d := diffSourceUpdate st s mapping
      if d.1.isEmpty && d.2.isEmpty then none else some (s, d)))

/-- Embedding of `_sort_sources`: the touched sources in ascending priority order. -/
def sortSources (sources : List Src) : List Src :=
  sourceOrder.filter (· ∈ sources)

/-- Embedding of `LiveConfigStore._allocate_revs`: consecutive fresh revisions in priority
order; returns the per-source assignment and the bumped counter. -/
def allocateRevs (baseRev : Nat) (sources : List Src) :
    List (Src × Nat) × Nat :=
  let ordered := sortSources sources
  ((ordered.enum.map (fun si => (si.2, baseRev + si.1 + 1))),
    baseRev + ordered.length)

/-- Embedding of `LiveConfigStore._apply_source_path_removals`. -/
def applyRemovals (slots : List (KPath × Slot (NVal V))) (s : Src)
    (paths : List KPath) : List (KPath × Slot (NVal V)) :=
  paths.foldl
    (fun acc p =>
      match dictLookup acc p with
      | none => acc
      | some sl =>
        let sl' := sl.pop s
        if sl'.isEmpty then dictErase acc p else dictInsert acc p sl')
    slots

/-- Embedding of `LiveConfigStore._apply_source_updates` over the sorted touched sources. -/
def applySourceUpdates (slots : List (KPath × Slot (NVal V)))
    (plan : List (Src × List KPath × List (KPath × NVal V)))
    (revBySource : List (Src × Nat)) : List (KPath × Slot (NVal V)) :=
  plan.foldl
    (fun acc entry =>
      let s := entry.1
      let removed := entry.2.1
      let updated := entry.2.2
      slotsWriteAll (applyRemovals acc s removed) s
        ((dictLookup revBySource s).getD 0) updated)
    slots

/-- Embedding of `LiveConfigStore.replace_sources`. -/
def Store.replaceSources (st : Store V) (u : UpdatesMap V) : Bool × Store V :=
  let plan := planSourceUpdates st u
  if plan.isEmpty then (false, st)
  else
    let touched := plan.map (·.1)
    let alloc := allocateRevs st.rev touched
    let slots' := applySourceUpdates st.slots plan alloc.1
    (true,
      { slots := slots'
        rev := alloc.2
        version := st.version + 1
        cached := none })

/-- Embedding of `LiveConfigStore.replace_source`. -/
def Store.replaceSource (st : Store V) (s : Src) (mapping : List (String × NVal V)) :
    Bool × Store V :=
  st.replaceSources
    (match s with
     | .yaml => { yaml := some mapping }
     | .dotenv => { dotenv := some mapping }
     | .env => { env := some mapping })

/-- Lexicographic strict comparison on `(rev, priority)` metas. -/
def metaLt (a b : Nat × Nat) : Bool :=
  a.1 < b.1 || (a.1 = b.1 && a.2 < b.2)

/-- Embedding of `_pick_winner`: fold the slot entries keeping the strictly greatest
`(rev, priority)` meta.  Empty slots never occur in reachable stores (the
Python function asserts on them); `none` models that situation. -/
def pickWinner (sl : Slot (NVal V)) : Option (Src × SourceValue (NVal V)) :=
  sl.entries.foldl
    (fun best entry =>
      match best with
      | none => some entry
      | some (bs, bsv) =>
        if metaLt (bsv.rev, bs.priority) (entry.2.rev, entry.1.priority) then
          some entry
        else some (bs, bsv))
    none

/-- Embedding of `LiveConfigStore._compute_winners`. -/
def computeWinners (slots : List (KPath × Slot (NVal V))) :
    List (KPath × (Nat × Nat × NVal V)) :=
  slots.filterMap (fun psl =>
    (pickWinner psl.2).map (fun w => (psl.1, (w.2.rev, w.1.priority, w.2.value))))

/-- Python tuple-of-strings comparison (lexicographic, `<` on strings). -/
def pathLt : KPath → KPath → Bool
  | [], [] => false
  | [], _ :: _ => true
  | _ :: _, [] => false
  | a :: as_, b :: bs => if a < b then true else if a = b then pathLt as_ bs else false

/-- The `sorted` key order used by `_build_materialized_snapshot`:
`(rev asc, priority asc, path length asc, path asc)`. -/
def winnerKeyLe (x y : KPath × (Nat × Nat × NVal V)) : Bool :=
  let (px, (rx, qx, _)) := x
  let (py, (ry, qy, _)) := y
  if rx ≠ ry then rx < ry
  else if qx ≠ qy then qx < qy
  else if px.length ≠ py.length then px.length < py.length
  else pathLt px py || px = py

/-- Stable insertion sort standing in for Python's stable `sorted`; the key
is injective over distinct paths, so stability never matters here. -/
def insertSorted (le : α → α → Bool) (x : α) : List α → List α
  | [] => [x]
  | y :: ys => if le x y then x :: y :: ys else y :: insertSorted le x ys

def sortByKey (le : α → α → Bool) : List α → List α
  | [] => []
  | x :: xs => insertSorted le x (sortByKey le xs)

/-- Embedding of `_set_nested_force`: descend creating/overwriting dict nodes, then store
the value at the last segment.  Flattened paths are never empty, so the `[]`
case is unreachable. -/
def setNestedForce (target : List (String × NVal V)) :
    KPath → NVal V → List (String × NVal V)
  | [], _ => target
  | [k], v => dictInsert target k v
  | k :: rest@(_ :: _), v =>
    let sub :=
      match dictLookup target k with
      | some (.node d) => d
      | _ => []
    dictInsert target k (.node (setNestedForce sub rest v))

/-- Embedding of `_build_materialized_snapshot`. -/
def buildMaterializedSnapshot (winners : List (KPath × (Nat × Nat × NVal V))) :
    List (String × NVal V) :=
  (sortByKey winnerKeyLe winners).foldl
    (fun merged pw => setNestedForce merged pw.1 pw.2.2.2) []

/-- Embedding of `LiveConfigStore.materialize` (deep copies are the identity). -/
def Store.materialize (st : Store V) : List (String × NVal V) × Store V :=
  match st.cached with
  | some c => (c, st)
  | none =>
    let c := buildMaterializedSnapshot (computeWinners st.slots)
    (c, { st with cached := some c })

/-- Embedding of `LiveConfigStore.version`. -/
def Store.versionOf (st : Store V) : Nat := st.version

end LiveConfig

end FastapiexSettings


namespace FastapiexSettings

/-! ## Lemmas about the LWW store -/

section LiveConfigLemmas

variable {V : Type} [DecidableEq V]

theorem slotsWrite_lookup (slots : List (KPath × Slot (NVal V))) (p : KPath)
    (s : Src) (sv : SourceValue (NVal V)) (q : KPath) :
    dictLookup (slotsWrite slots p s sv) q =
      if q = p then some (((dictLookup slots p).getD {}).set s sv)
      else dictLookup slots q := by
  unfold slotsWrite
  rw [dictLookup_dictInsert]

theorem dictLookup_none_of_not_mem_keys {K A : Type} [DecidableEq K]
    {d : List (K × A)} {k : K} (h : k ∉ d.map Prod.fst) : dictLookup d k = none := by
  cases hk : dictHasKey d k
  · exact dictHasKey_eq_false hk
  · exfalso
    simp only [dictHasKey, List.any_eq_true, decide_eq_true_eq] at hk
    obtain ⟨p, hp, hpk⟩ := hk
    exact h (List.mem_map.mpr ⟨p, hp, hpk⟩)

theorem flattenEntries_keys_nodup (es : List (String × NVal V)) (pre : KPath) :
    ((flattenEntries es pre).map Prod.fst).Nodup := by
  induction es, pre using flattenEntries.induct with
  | case1 pre => simp [flattenEntries]
  | case2 k v rest pre path head ih =>
    rw [flattenEntries.eq_def]
    cases v with
    | leaf x => exact dictUpdate_keys_nodup (by simp) _
    | node es =>
      cases es with
      | nil => exact dictUpdate_keys_nodup (by simp) _
      | cons e es2 =>
        dsimp only at head ⊢
        apply dictUpdate_keys_nodup
        by_cases hne : (flattenEntries (e :: es2) (pre ++ [k])).isEmpty
        · rw [if_pos hne]
          simp
        · rw [if_neg hne]
          exact head

theorem slotsWriteAll_lookup (flat : List (KPath × NVal V))
    (hnd : (flat.map Prod.fst).Nodup) (slots : List (KPath × Slot (NVal V)))
    (s : Src) (rev : Nat) (q : KPath) :
    dictLookup (slotsWriteAll slots s rev flat) q =
      match dictLookup flat q with
      | some v => some (((dictLookup slots q).getD {}).set s ⟨rev, v⟩)
      | none => dictLookup slots q := by
  induction flat generalizing slots with
  | nil => simp [slotsWriteAll, dictLookup]
  | cons pv rest ih =>
    obtain ⟨p0, v0⟩ := pv
    simp only [List.map_cons, List.nodup_cons] at hnd
    obtain ⟨hp0, hndrest⟩ := hnd
    simp only [slotsWriteAll, List.foldl_cons] at ih ⊢
    rw [ih hndrest]
    by_cases hq : q = p0
    · subst hq
      have hrest : dictLookup rest q = none :=
        dictLookup_none_of_not_mem_keys hp0
      rw [hrest]
      rw [slotsWrite_lookup, if_pos rfl]
      simp [dictLookup]
    · rw [slotsWrite_lookup, if_neg hq]
      simp [dictLookup, if_neg hq]

/-- The slot `reset` seeds at a path, given the three flat lookups. -/
def seedSlotAt (oy od oe : Option (NVal V)) : Option (Slot (NVal V)) :=
  match oy, od, oe with
  | none, none, none => none
  | _, _, _ =>
    some
      { yaml := oy.map (⟨Src.yaml.priority, ·⟩)
        dotenv := od.map (⟨Src.dotenv.priority, ·⟩)
        env := oe.map (⟨Src.env.priority, ·⟩) }

theorem buildSeedSlots_lookup (S : SourcesMap V) (p : KPath) :
    dictLookup (buildSeedSlots S) p =
      seedSlotAt (dictLookup (flattenEntries S.yaml []) p)
        (dictLookup (flattenEntries S.dotenv []) p)
        (dictLookup (flattenEntries S.env []) p) := by
  have hy := flattenEntries_keys_nodup (V := V) S.yaml []
  have hd := flattenEntries_keys_nodup (V := V) S.dotenv []
  have he := flattenEntries_keys_nodup (V := V) S.env []
  show dictLookup
      (slotsWriteAll
        (slotsWriteAll (slotsWriteAll [] .yaml Src.yaml.priority (flattenEntries S.yaml []))
          .dotenv Src.dotenv.priority (flattenEntries S.dotenv []))
        .env Src.env.priority (flattenEntries S.env [])) p = _
  rw [slotsWriteAll_lookup _ he, slotsWriteAll_lookup _ hd, slotsWriteAll_lookup _ hy]
  cases hvy : dictLookup (flattenEntries S.yaml []) p <;>
    cases hvd : dictLookup (flattenEntries S.dotenv []) p <;>
      cases hve : dictLookup (flattenEntries S.env []) p <;>
        simp [dictLookup, seedSlotAt, Slot.set, Src.priority]

/-- The per-path winner of a store: `_pick_winner` applied to the slot. -/
def winnerAt (st : Store V) (p : KPath) : Option (Src × SourceValue (NVal V)) :=
  (dictLookup st.slots p).bind pickWinner

theorem reset_winnerAt (st : Store V) (S : SourcesMap V) (p : KPath) :
    winnerAt (st.reset S).2 p =
      (seedSlotAt (dictLookup (flattenEntries S.yaml []) p)
        (dictLookup (flattenEntries S.dotenv []) p)
        (dictLookup (flattenEntries S.env []) p)).bind pickWinner := by
  rw [← buildSeedSlots_lookup]
  unfold Store.reset
  by_cases heq : dictEqB (buildSeedSlots S) st.slots = true
  · rw [if_pos heq]
    show (dictLookup st.slots p).bind pickWinner = _
    rw [← dictEqB_lookup heq]
  · rw [if_neg heq]
    rfl

/-- The sources whose flattened mapping contains a path (in priority order). -/
def seedSources (S : SourcesMap V) (p : KPath) : List Src :=
  sourceOrder.filter (fun s => dictMem (flattenEntries (S.get s) []) p)

/-- The highest-priority source containing a path (env > dotenv > yaml). -/
def topSeedSrc (S : SourcesMap V) (p : KPath) : Option Src :=
  if dictMem (flattenEntries S.env []) p then some .env
  else if dictMem (flattenEntries S.dotenv []) p then some .dotenv
  else if dictMem (flattenEntries S.yaml []) p then some .yaml
  else none

end LiveConfigLemmas

/-- C1. For every triple of nested mappings and any starting store, after
`reset({yaml: F, dotenv: D, env: E})` every path present in more than one of
the three flattened sources has as its slot winner the highest-priority source
containing it (priority `env > dotenv > yaml`), carrying that source's value,
and the winning seed is stamped with `rev = source priority`. -/
theorem C1_startup_precedence {V : Type} [DecidableEq V]
    (st : Store V) (S : SourcesMap V) (p : KPath)
    (h2 : 2 ≤ (seedSources S p).length) :
    ∃ s v,
      topSeedSrc S p = some s ∧
      dictLookup (flattenEntries (S.get s) []) p = some v ∧
      winnerAt (st.reset S).2 p = some (s, ⟨s.priority, v⟩) := by
  rw [reset_winnerAt]
  cases hvy : dictLookup (flattenEntries S.yaml []) p <;>
    cases hvd : dictLookup (flattenEntries S.dotenv []) p <;>
      cases hve : dictLookup (flattenEntries S.env []) p
  case none.none.none =>
    simp [seedSources, sourceOrder, dictMem, SourcesMap.get, hvy, hvd, hve] at h2
  case none.none.some ve =>
    simp [seedSources, sourceOrder, dictMem, SourcesMap.get, hvy, hvd, hve] at h2
  case none.some.none vd =>
    simp [seedSources, sourceOrder, dictMem, SourcesMap.get, hvy, hvd, hve] at h2
  case some.none.none vy =>
    simp [seedSources, sourceOrder, dictMem, SourcesMap.get, hvy, hvd, hve] at h2
  case none.some.some vd ve =>
    refine ⟨.env, ve, ?_, ?_, ?_⟩
    · simp [topSeedSrc, dictMem, hve]
    · simpa [SourcesMap.get] using hve
    · simp [seedSlotAt, pickWinner, Slot.entries, Slot.set, metaLt, Src.priority,
        Option.bind]
  case some.none.some vy ve =>
    refine ⟨.env, ve, ?_, ?_, ?_⟩
    · simp [topSeedSrc, dictMem, hve]
    · simpa [SourcesMap.get] using hve
    · simp [seedSlotAt, pickWinner, Slot.entries, Slot.set, metaLt, Src.priority,
        Option.bind]
  case some.some.none vy vd =>
    refine ⟨.dotenv, vd, ?_, ?_, ?_⟩
    · simp [topSeedSrc, dictMem, hve, hvd]
    · simpa [SourcesMap.get] using hvd
    · simp [seedSlotAt, pickWinner, Slot.entries, Slot.set, metaLt, Src.priority,
        Option.bind]
  case some.some.some vy vd ve =>
    refine ⟨.env, ve, ?_, ?_, ?_⟩
    · simp [topSeedSrc, dictMem, hve]
    · simpa [SourcesMap.get] using hve
    · simp [seedSlotAt, pickWinner, Slot.entries, Slot.set, metaLt, Src.priority,
        Option.bind]

/-- Witness for C1 at a concrete input: path `["app", "name"]` is present in
the yaml and env sources, and the winner is env's value with rev 3. -/
theorem C1_startup_precedence_witness :
    2 ≤ (seedSources
          ({ yaml := [("app", .node [("name", .leaf 1)])]
             env := [("app", .node [("name", .leaf 2)])] } : SourcesMap Nat)
          ["app", "name"]).length ∧
    ∃ s v,
      topSeedSrc
          ({ yaml := [("app", .node [("name", .leaf 1)])]
             env := [("app", .node [("name", .leaf 2)])] } : SourcesMap Nat)
          ["app", "name"] = some s ∧
      dictLookup
          (flattenEntries
            (SourcesMap.get
              { yaml := [("app", .node [("name", .leaf 1)])]
                env := [("app", .node [("name", .leaf 2)])] } s) [])
          ["app", "name"] = some v ∧
      winnerAt
          ((Store.reset {}
            { yaml := [("app", .node [("name", .leaf 1)])]
              env := [("app", .node [("name", .leaf 2)])] }).2)
          ["app", "name"] = some (s, ⟨s.priority, v⟩) := by
  have h2 : 2 ≤ (seedSources
      ({ yaml := [("app", .node [("name", .leaf 1)])]
         env := [("app", .node [("name", .leaf 2)])] } : SourcesMap Nat)
      ["app", "name"]).length := by
    simp [seedSources, sourceOrder, dictMem, dictLookup, flattenEntries,
      dictUpdate, dictInsert, dictHasKey, SourcesMap.get]
  exact ⟨h2,
    C1_startup_precedence {}
      { yaml := [("app", .node [("name", .leaf 1)])]
        env := [("app", .node [("name", .leaf 2)])] }
      ["app", "name"] h2⟩


/-! ## Store well-formedness (reachable-state invariants) -/

section WellFormed

variable {V : Type} [DecidableEq V]

/-- Spec invariant (a) of `LWWStore`: every revision in the store is at most
the revision counter. -/
def wellRevB (st : Store V) : Bool :=
  st.slots.all (fun psl => decide (slotMaxRev psl.2 ≤ st.rev))

/-- Python dicts cannot carry a key twice; reachable stores therefore have
duplicate-free slot keys. -/
def wellFormedB (st : Store V) : Bool :=
  decide ((st.slots.map Prod.fst).Nodup) && wellRevB st

theorem foldl_max_le_of_mem {α : Type} (f : α → Nat) (l : List α) (acc : Nat) :
    (∀ x ∈ l, f x ≤ l.foldl (fun m x => max m (f x)) acc) ∧
      acc ≤ l.foldl (fun m x => max m (f x)) acc := by
  induction l generalizing acc with
  | nil => simp
  | cons y ys ih =>
    obtain ⟨ih1, ih2⟩ := ih (max acc (f y))
    refine ⟨?_, ?_⟩
    · intro x hx
      rcases List.mem_cons.mp hx with hx | hx
      · subst hx
        exact le_trans (le_max_right acc (f x)) ih2
      · exact ih1 x hx
    · exact le_trans (le_max_left acc (f y)) ih2

theorem slotMaxRev_le_slotsMaxRev {slots : List (KPath × Slot (NVal V))}
    {psl : KPath × Slot (NVal V)} (h : psl ∈ slots) :
    slotMaxRev psl.2 ≤ slotsMaxRev slots :=
  (foldl_max_le_of_mem (fun q => slotMaxRev q.2) slots 0).1 psl h

theorem entry_rev_le_slotMaxRev {sl : Slot (NVal V)} {s : Src}
    {sv : SourceValue (NVal V)} (h : sl.get s = some sv) :
    sv.rev ≤ slotMaxRev sl := by
  cases s <;> simp only [Slot.get] at h <;> simp [slotMaxRev, h]

theorem entry_rev_le {st : Store V} (hw : wellRevB st = true) {p : KPath}
    {sl : Slot (NVal V)} (hsl : dictLookup st.slots p = some sl) {s : Src}
    {sv : SourceValue (NVal V)} (hsv : sl.get s = some sv) : sv.rev ≤ st.rev := by
  have hmem := dictLookup_some_exists_mem hsl
  simp only [wellRevB, List.all_eq_true, decide_eq_true_eq] at hw
  exact le_trans (entry_rev_le_slotMaxRev hsv) (hw (p, sl) hmem)

theorem slotsWriteAll_keys_nodup {slots : List (KPath × Slot (NVal V))}
    (h : (slots.map Prod.fst).Nodup) (s : Src) (rev : Nat)
    (flat : List (KPath × NVal V)) :
    ((slotsWriteAll slots s rev flat).map Prod.fst).Nodup := by
  induction flat generalizing slots with
  | nil => exact h
  | cons pv rest ih =>
    simp only [slotsWriteAll, List.foldl_cons] at ih ⊢
    exact ih (dictInsert_keys_nodup h _ _)

theorem buildSeedSlots_keys_nodup (S : SourcesMap V) :
    ((buildSeedSlots S).map Prod.fst).Nodup := by
  show ((slotsWriteAll (slotsWriteAll (slotsWriteAll [] _ _ _) _ _ _) _ _ _).map
    Prod.fst).Nodup
  exact slotsWriteAll_keys_nodup
    (slotsWriteAll_keys_nodup (slotsWriteAll_keys_nodup (by simp) _ _ _) _ _ _) _ _ _

theorem reset_wellFormed {st : Store V} (hwf : wellFormedB st = true)
    (S : SourcesMap V) : wellFormedB (st.reset S).2 = true := by
  unfold Store.reset
  by_cases heq : dictEqB (buildSeedSlots S) st.slots = true
  · rw [if_pos heq]
    exact hwf
  · rw [if_neg heq]
    simp only [wellFormedB, Bool.and_eq_true, decide_eq_true_eq, wellRevB,
      List.all_eq_true]
    refine ⟨buildSeedSlots_keys_nodup S, ?_⟩
    intro psl hmem
    simpa using slotMaxRev_le_slotsMaxRev hmem

end WellFormed

/-! ## Generic lemmas for the diff/apply pipeline -/

section DiffApply

variable {V : Type} [DecidableEq V]

theorem filterMap_keys_sublist {K A B : Type} (g : K × A → Option (K × B))
    (hg : ∀ p q, g p = some q → q.1 = p.1) (l : List (K × A)) :
    List.Sublist ((l.filterMap g).map Prod.fst) (l.map Prod.fst) := by
  induction l with
  | nil => simp
  | cons p rest ih =>
    cases hg0 : g p with
    | none =>
      simp only [List.filterMap_cons, hg0, List.map_cons]
      exact ih.cons _
    | some q =>
      have := hg p q hg0
      simp only [List.filterMap_cons, hg0, List.map_cons, this]
      exact ih.cons₂ _

theorem dictLookup_filterMap_keyed {K A B : Type} [DecidableEq K]
    (g : K × A → Option (K × B)) (hg : ∀ p q, g p = some q → q.1 = p.1)
    {l : List (K × A)} (hnd : (l.map Prod.fst).Nodup) (k : K) :
    dictLookup (l.filterMap g) k =
      (dictLookup l k).bind (fun a => (g (k, a)).map Prod.snd) := by
  induction l with
  | nil => simp [dictLookup]
  | cons p rest ih =>
    obtain ⟨k0, a0⟩ := p
    simp only [List.map_cons, List.nodup_cons] at hnd
    obtain ⟨hk0, hndrest⟩ := hnd
    cases hg0 : g (k0, a0) with
    | none =>
      simp only [List.filterMap_cons, hg0]
      by_cases h' : k = k0
      · subst h'
        have hnone : dictLookup (rest.filterMap g) k = none := by
          apply dictLookup_none_of_not_mem_keys
          intro hmem
          exact hk0 (List.Sublist.mem hmem (filterMap_keys_sublist g hg rest))
        rw [hnone]
        simp [dictLookup, hg0]
      · rw [ih hndrest]
        simp [dictLookup, h']
    | some q =>
      obtain ⟨k1, b⟩ := q
      have hk1 : k1 = k0 := hg _ _ hg0
      simp only [List.filterMap_cons, hg0]
      by_cases h' : k = k0
      · subst h'
        simp [dictLookup, hk1, hg0]
      · have h1 : ¬ k = k1 := fun h => h' (h.trans hk1)
        simp only [dictLookup, if_neg h', if_neg h1]
        rw [ih hndrest]

theorem applyRemovals_lookup_notmem {slots : List (KPath × Slot (NVal V))}
    {s : Src} {paths : List KPath} {p : KPath} (h : p ∉ paths) :
    dictLookup (applyRemovals slots s paths) p = dictLookup slots p := by
  induction paths generalizing slots with
  | nil => rfl
  | cons q rest ih =>
    simp only [List.mem_cons, not_or] at h
    obtain ⟨hq, hrest⟩ := h
    simp only [applyRemovals, List.foldl_cons] at ih ⊢
    rw [ih hrest]
    cases hsl : dictLookup slots q with
    | none => rfl
    | some sl =>
      show dictLookup
          (if (sl.pop s).isEmpty then dictErase slots q
           else dictInsert slots q (sl.pop s)) p = dictLookup slots p
      by_cases he : (sl.pop s).isEmpty
      · rw [if_pos he, dictLookup_dictErase, if_neg hq]
      · rw [if_neg he, dictLookup_dictInsert, if_neg hq]

theorem replaceSource_yaml_eq (st : Store V) (m : List (String × NVal V)) :
    st.replaceSource .yaml m =
      (if (diffSourceUpdate st .yaml m).1.isEmpty &&
          (diffSourceUpdate st .yaml m).2.isEmpty then (false, st)
       else
        (true,
          { slots := slotsWriteAll (applyRemovals st.slots .yaml
                (diffSourceUpdate st .yaml m).1) .yaml (st.rev + 1)
                (diffSourceUpdate st .yaml m).2
            rev := st.rev + 1
            version := st.version + 1
            cached := none })) := by
  have hplan : planSourceUpdates st ({ yaml := some m } : UpdatesMap V) =
      (if ((diffSourceUpdate st .yaml m).1.isEmpty &&
            (diffSourceUpdate st .yaml m).2.isEmpty)
       then [] else [(.yaml, diffSourceUpdate st .yaml m)]) := by
    unfold planSourceUpdates
    simp only [sourceOrder, List.filterMap_cons, List.filterMap_nil, UpdatesMap.get,
      Option.some_bind, Option.none_bind]
    by_cases hc : ((diffSourceUpdate st .yaml m).1.isEmpty &&
        (diffSourceUpdate st .yaml m).2.isEmpty) = true
    · rw [if_pos hc, if_pos hc]
    · rw [if_neg hc, if_neg hc]
  have halloc : allocateRevs st.rev [Src.yaml] = ([(Src.yaml, st.rev + 1)], st.rev + 1) := by
    simp [allocateRevs, sortSources, sourceOrder, List.filter, List.enum]
  show st.replaceSources { yaml := some m } = _
  unfold Store.replaceSources
  rw [hplan]
  by_cases hc : ((diffSourceUpdate st .yaml m).1.isEmpty &&
      (diffSourceUpdate st .yaml m).2.isEmpty) = true
  · rw [if_pos hc, if_pos hc]
    simp
  · rw [if_neg hc, if_neg hc]
    rw [if_neg (by simp)]
    simp only [List.map_cons, List.map_nil, halloc]
    simp [applySourceUpdates, dictLookup]

theorem replaceSource_dotenv_eq (st : Store V) (m : List (String × NVal V)) :
    st.replaceSource .dotenv m =
      (if (diffSourceUpdate st .dotenv m).1.isEmpty &&
          (diffSourceUpdate st .dotenv m).2.isEmpty then (false, st)
       else
        (true,
          { slots := slotsWriteAll (applyRemovals st.slots .dotenv
                (diffSourceUpdate st .dotenv m).1) .dotenv (st.rev + 1)
                (diffSourceUpdate st .dotenv m).2
            rev := st.rev + 1
            version := st.version + 1
            cached := none })) := by
  have hplan : planSourceUpdates st ({ dotenv := some m } : UpdatesMap V) =
      (if ((diffSourceUpdate st .dotenv m).1.isEmpty &&
            (diffSourceUpdate st .dotenv m).2.isEmpty)
       then [] else [(.dotenv, diffSourceUpdate st .dotenv m)]) := by
    unfold planSourceUpdates
    simp only [sourceOrder, List.filterMap_cons, List.filterMap_nil, UpdatesMap.get,
      Option.some_bind, Option.none_bind]
    by_cases hc : ((diffSourceUpdate st .dotenv m).1.isEmpty &&
        (diffSourceUpdate st .dotenv m).2.isEmpty) = true
    · rw [if_pos hc, if_pos hc]
    · rw [if_neg hc, if_neg hc]
  have halloc : allocateRevs st.rev [Src.dotenv] =
      ([(Src.dotenv, st.rev + 1)], st.rev + 1) := by
    simp [allocateRevs, sortSources, sourceOrder, List.filter, List.enum]
  show st.replaceSources { dotenv := some m } = _
  unfold Store.replaceSources
  rw [hplan]
  by_cases hc : ((diffSourceUpdate st .dotenv m).1.isEmpty &&
      (diffSourceUpdate st .dotenv m).2.isEmpty) = true
  · rw [if_pos hc, if_pos hc]
    simp
  · rw [if_neg hc, if_neg hc]
    rw [if_neg (by simp)]
    simp only [List.map_cons, List.map_nil, halloc]
    simp [applySourceUpdates, dictLookup]

theorem replaceSource_env_eq (st : Store V) (m : List (String × NVal V)) :
    st.replaceSource .env m =
      (if (diffSourceUpdate st .env m).1.isEmpty &&
          (diffSourceUpdate st .env m).2.isEmpty then (false, st)
       else
        (true,
          { slots := slotsWriteAll (applyRemovals st.slots .env
                (diffSourceUpdate st .env m).1) .env (st.rev + 1)
                (diffSourceUpdate st .env m).2
            rev := st.rev + 1
            version := st.version + 1
            cached := none })) := by
  have hplan : planSourceUpdates st ({ env := some m } : UpdatesMap V) =
      (if ((diffSourceUpdate st .env m).1.isEmpty &&
            (diffSourceUpdate st .env m).2.isEmpty)
       then [] else [(.env, diffSourceUpdate st .env m)]) := by
    unfold planSourceUpdates
    simp only [sourceOrder, List.filterMap_cons, List.filterMap_nil, UpdatesMap.get,
      Option.some_bind, Option.none_bind]
    by_cases hc : ((diffSourceUpdate st .env m).1.isEmpty &&
        (diffSourceUpdate st .env m).2.isEmpty) = true
    · rw [if_pos hc, if_pos hc]
    · rw [if_neg hc, if_neg hc]
  have halloc : allocateRevs st.rev [Src.env] = ([(Src.env, st.rev + 1)], st.rev + 1) := by
    simp [allocateRevs, sortSources, sourceOrder, List.filter, List.enum]
  show st.replaceSources { env := some m } = _
  unfold Store.replaceSources
  rw [hplan]
  by_cases hc : ((diffSourceUpdate st .env m).1.isEmpty &&
      (diffSourceUpdate st .env m).2.isEmpty) = true
  · rw [if_pos hc, if_pos hc]
    simp
  · rw [if_neg hc, if_neg hc]
    rw [if_neg (by simp)]
    simp only [List.map_cons, List.map_nil, halloc]
    simp [applySourceUpdates, dictLookup]

/-- Embedding of `replace_source` for any single source: either the diff is empty (no-op,
returns `False`) or all writes carry the single fresh revision `rev + 1`. -/
theorem replaceSource_eq (st : Store V) (s : Src) (m : List (String × NVal V)) :
    st.replaceSource s m =
      (if (diffSourceUpdate st s m).1.isEmpty &&
          (diffSourceUpdate st s m).2.isEmpty then (false, st)
       else
        (true,
          { slots := slotsWriteAll (applyRemovals st.slots s
                (diffSourceUpdate st s m).1) s (st.rev + 1)
                (diffSourceUpdate st s m).2
            rev := st.rev + 1
            version := st.version + 1
            cached := none })) := by
  cases s with
  | yaml => exact replaceSource_yaml_eq st m
  | dotenv => exact replaceSource_dotenv_eq st m
  | env => exact replaceSource_env_eq st m

/-- The winner after writing yaml with a revision strictly above every other
entry in the slot is the fresh yaml entry. -/
theorem pickWinner_set_yaml (sl : Slot (NVal V)) (rev : Nat) (v : NVal V)
    (hd : ∀ sv, sl.dotenv = some sv → sv.rev < rev)
    (he : ∀ sv, sl.env = some sv → sv.rev < rev) :
    pickWinner (sl.set .yaml ⟨rev, v⟩) = some (.yaml, ⟨rev, v⟩) := by
  obtain ⟨oy, od, oe⟩ := sl
  cases od with
  | none =>
    cases oe with
    | none => simp [Slot.set, Slot.entries, pickWinner]
    | some sve =>
      have h1 := he sve rfl
      have h2 : ¬ rev < sve.rev := by omega
      have h3 : ¬ rev = sve.rev := by omega
      simp [Slot.set, Slot.entries, pickWinner, metaLt, Src.priority, h2, h3]
  | some svd =>
    have h1 := hd svd rfl
    have h2 : ¬ rev < svd.rev := by omega
    have h3 : ¬ rev = svd.rev := by omega
    cases oe with
    | none => simp [Slot.set, Slot.entries, pickWinner, metaLt, Src.priority, h2, h3]
    | some sve =>
      have h4 := he sve rfl
      have h5 : ¬ rev < sve.rev := by omega
      have h6 : ¬ rev = sve.rev := by omega
      simp [Slot.set, Slot.entries, pickWinner, metaLt, Src.priority, h2, h3, h5, h6]

theorem Slot.get_set (sl : Slot (NVal V)) (s s' : Src) (sv : SourceValue (NVal V)) :
    (sl.set s sv).get s' = if s' = s then some sv else sl.get s' := by
  cases s <;> cases s' <;> simp [Slot.set, Slot.get]

theorem Slot.get_pop (sl : Slot (NVal V)) (s s' : Src) :
    (sl.pop s).get s' = if s' = s then none else sl.get s' := by
  cases s <;> cases s' <;> simp [Slot.pop, Slot.get]

theorem Slot.get_empty (s : Src) : (({} : Slot (NVal V))).get s = none := by
  cases s <;> rfl

/-- Every entry of a slot surviving `_apply_source_path_removals` was already
present in the original slots. -/
theorem applyRemovals_lookup_entry {slots : List (KPath × Slot (NVal V))}
    {s : Src} {paths : List KPath} {p : KPath} {sl : Slot (NVal V)}
    (h : dictLookup (applyRemovals slots s paths) p = some sl)
    {s' : Src} {sv : SourceValue (NVal V)} (hsv : sl.get s' = some sv) :
    ∃ sl0, dictLookup slots p = some sl0 ∧ sl0.get s' = some sv := by
  induction paths generalizing slots with
  | nil => exact ⟨sl, h, hsv⟩
  | cons q rest ih =>
    simp only [applyRemovals, List.foldl_cons] at h ih
    cases hq : dictLookup slots q with
    | none =>
      simp only [hq] at h
      exact ih h
    | some slq =>
      simp only [hq] at h
      obtain ⟨sl0, hsl0, hget0⟩ := ih h
      by_cases he : (slq.pop s).isEmpty = true
      · rw [if_pos he, dictLookup_dictErase] at hsl0
        by_cases hpq : p = q
        · rw [if_pos hpq] at hsl0
          cases hsl0
        · rw [if_neg hpq] at hsl0
          exact ⟨sl0, hsl0, hget0⟩
      · rw [if_neg he, dictLookup_dictInsert] at hsl0
        by_cases hpq : p = q
        · rw [if_pos hpq] at hsl0
          subst hpq
          have hsl0' := Option.some.inj hsl0
          rw [← hsl0', Slot.get_pop] at hget0
          by_cases hss : s' = s
          · rw [if_pos hss] at hget0
            cases hget0
          · rw [if_neg hss] at hget0
            exact ⟨slq, hq, hget0⟩
        · rw [if_neg hpq] at hsl0
          exact ⟨sl0, hsl0, hget0⟩

/-- The value the yaml (file) source holds at a path. -/
def yamlValueAt (st : Store V) (p : KPath) : Option (NVal V) :=
  ((dictLookup st.slots p).bind (fun sl => sl.get .yaml)).map (·.value)

/-- The update half of `_diff_source_update` as a named function. -/
def diffUpdateFn (curr : List (KPath × SourceValue (NVal V))) :
    KPath × NVal V → Option (KPath × NVal V) := fun pv =>
  match dictLookup curr pv.1 with
  | none => some pv
  | some existing => if existing.value ≠ pv.2 then some pv else none

/-- The removal half of `_diff_source_update` as a named function. -/
def diffRemovedFn (nextFlat : List (KPath × NVal V)) :
    KPath × SourceValue (NVal V) → Option KPath := fun pv =>
  if dictMem nextFlat pv.1 then none else some pv.1

theorem diffSourceUpdate_eq (st : Store V) (s : Src) (m : List (String × NVal V)) :
    diffSourceUpdate st s m =
      ((currentSourceValues st.slots s).filterMap
          (diffRemovedFn (flattenEntries m [])),
        (flattenEntries m []).filterMap
          (diffUpdateFn (currentSourceValues st.slots s))) := rfl

theorem diffUpdateFn_keyed (curr : List (KPath × SourceValue (NVal V)))
    (pv q : KPath × NVal V) (h : diffUpdateFn curr pv = some q) : q = pv := by
  unfold diffUpdateFn at h
  cases hc : dictLookup curr pv.1 with
  | none =>
    simp only [hc] at h
    exact (Option.some.inj h).symm
  | some ex =>
    simp only [hc] at h
    by_cases hv : ex.value ≠ pv.2
    · rw [if_pos hv] at h
      exact (Option.some.inj h).symm
    · rw [if_neg hv] at h
      cases h

theorem lookup_diffUpdate (curr : List (KPath × SourceValue (NVal V)))
    {nf : List (KPath × NVal V)} (hnd : (nf.map Prod.fst).Nodup) (p : KPath) :
    dictLookup (nf.filterMap (diffUpdateFn curr)) p =
      (dictLookup nf p).bind (fun v =>
        match dictLookup curr p with
        | none => some v
        | some ex => if ex.value ≠ v then some v else none) := by
  rw [dictLookup_filterMap_keyed _
    (fun pv q h => by rw [diffUpdateFn_keyed curr pv q h]) hnd]
  cases hv : dictLookup nf p with
  | none => rfl
  | some v =>
    simp only [Option.some_bind]
    cases hc : dictLookup curr p with
    | none => simp [diffUpdateFn, hc]
    | some ex =>
      by_cases hvv : ex.value ≠ v
      · simp [diffUpdateFn, hc, hvv]
      · simp [diffUpdateFn, hc, hvv]

theorem not_mem_removed (curr : List (KPath × SourceValue (NVal V)))
    (nf : List (KPath × NVal V)) (p : KPath) (h : dictMem nf p = true) :
    p ∉ curr.filterMap (diffRemovedFn nf) := by
  intro hmem
  obtain ⟨pv, hpv, hsome⟩ := List.mem_filterMap.mp hmem
  unfold diffRemovedFn at hsome
  by_cases hm : dictMem nf pv.1 = true
  · rw [if_pos hm] at hsome
    cases hsome
  · rw [if_neg hm] at hsome
    injection hsome with h1
    rw [h1] at hm
    exact hm h

theorem not_mem_removed_of_no_entry (curr : List (KPath × SourceValue (NVal V)))
    (nf : List (KPath × NVal V)) (p : KPath) (h : dictLookup curr p = none) :
    p ∉ curr.filterMap (diffRemovedFn nf) := by
  intro hmem
  obtain ⟨pv, hpv, hsome⟩ := List.mem_filterMap.mp hmem
  unfold diffRemovedFn at hsome
  by_cases hm : dictMem nf pv.1 = true
  · rw [if_pos hm] at hsome
    cases hsome
  · rw [if_neg hm] at hsome
    injection hsome with h1
    have := dictLookup_isSome_of_mem hpv
    rw [h1, h] at this
    cases this

theorem currentSourceValues_lookup {slots : List (KPath × Slot (NVal V))}
    (hnd : (slots.map Prod.fst).Nodup) (s : Src) (p : KPath) :
    dictLookup (currentSourceValues slots s) p =
      (dictLookup slots p).bind (fun sl => sl.get s) := by
  unfold currentSourceValues
  rw [dictLookup_filterMap_keyed _ ?hg hnd p]
  case hg =>
    intro pq q h
    cases hq : Slot.get pq.2 s with
    | none => simp [hq] at h
    | some sv =>
      rw [hq] at h
      simp only [Option.map_some'] at h
      injection h with h1
      rw [← h1]
  cases hsl : dictLookup slots p with
  | none => rfl
  | some sl =>
    simp only [Option.some_bind]
    cases hq : Slot.get sl s with
    | none => simp [hq]
    | some sv => simp [hq]

end DiffApply

/-- C2. For every store seeded by `reset` and every file mapping `F'`,
after `replace_source(yaml, F')`: a path whose yaml (file) value `F'` changes
materialises `F'`'s value — the slot winner becomes the yaml entry stamped
with the fresh revision `rev+1`, which dominates every earlier env/dotenv
seed — while a path whose yaml value is unchanged by `F'` keeps exactly its
previous winner (in particular a path previously won by env still carries the
env value). -/
theorem C2_lww_override {V : Type} [DecidableEq V] (st : Store V) (S : SourcesMap V)
    (hwf : wellFormedB st = true) (F' : List (String × NVal V)) :
    (∀ p v, dictLookup (flattenEntries F' []) p = some v →
        yamlValueAt (st.reset S).2 p ≠ some v →
        winnerAt ((st.reset S).2.replaceSource .yaml F').2 p =
          some (.yaml, ⟨(st.reset S).2.rev + 1, v⟩)) ∧
    (∀ p, dictLookup (flattenEntries F' []) p = yamlValueAt (st.reset S).2 p →
        winnerAt ((st.reset S).2.replaceSource .yaml F').2 p =
          winnerAt (st.reset S).2 p) := by
  have hwf1 := reset_wellFormed hwf S
  set st1 := (st.reset S).2 with hst1
  have hsplit : (st1.slots.map Prod.fst).Nodup ∧ wellRevB st1 = true := by
    simpa [wellFormedB] using hwf1
  obtain ⟨hnd1, hwr1⟩ := hsplit
  have hndnf : ((flattenEntries F' []).map Prod.fst).Nodup :=
    flattenEntries_keys_nodup F' []
  have hndupd : (((diffSourceUpdate st1 .yaml F').2).map Prod.fst).Nodup := by
    rw [diffSourceUpdate_eq]
    exact (filterMap_keys_sublist _
      (fun pv q h => by rw [diffUpdateFn_keyed _ pv q h]) _).nodup hndnf
  have hcurrl : ∀ p, dictLookup (currentSourceValues st1.slots .yaml) p =
      (dictLookup st1.slots p).bind (fun sl => sl.get .yaml) :=
    fun p => currentSourceValues_lookup hnd1 .yaml p
  constructor
  · -- changed paths win with the fresh yaml revision
    intro p v hnfp hne
    have hupd : dictLookup ((diffSourceUpdate st1 .yaml F').2) p = some v := by
      rw [diffSourceUpdate_eq]
      rw [lookup_diffUpdate _ hndnf p, hnfp]
      simp only [Option.some_bind]
      cases hc : dictLookup (currentSourceValues st1.slots .yaml) p with
      | none => rfl
      | some ex =>
        have hvne : ex.value ≠ v := by
          intro hvv
          apply hne
          unfold yamlValueAt
          rw [← hcurrl p, hc]
          simp [hvv]
        simp [hvne]
    have hcond : ¬ ((diffSourceUpdate st1 .yaml F').1.isEmpty &&
        (diffSourceUpdate st1 .yaml F').2.isEmpty) = true := by
      intro hcond
      have h2 := (Bool.and_eq_true _ _ |>.mp hcond).2
      rw [List.isEmpty_iff] at h2
      rw [h2] at hupd
      cases hupd
    rw [replaceSource_yaml_eq, if_neg hcond]
    unfold winnerAt
    simp only
    rw [slotsWriteAll_lookup _ hndupd, hupd]
    have hnotrem : p ∉ (diffSourceUpdate st1 .yaml F').1 := by
      rw [diffSourceUpdate_eq]
      exact not_mem_removed _ _ p (by simp [dictMem, hnfp])
    rw [applyRemovals_lookup_notmem hnotrem]
    cases hsl : dictLookup st1.slots p with
    | none =>
      simp [Slot.set, pickWinner, Slot.entries]
    | some sl =>
      simp only [Option.getD_some, Option.some_bind]
      apply pickWinner_set_yaml
      · intro sv hsv
        have := entry_rev_le hwr1 hsl (s := .dotenv) (by simpa [Slot.get] using hsv)
        omega
      · intro sv hsv
        have := entry_rev_le hwr1 hsl (s := .env) (by simpa [Slot.get] using hsv)
        omega
  · -- unchanged paths keep their previous winner
    intro p heq
    have hupd0 : dictLookup ((diffSourceUpdate st1 .yaml F').2) p = none := by
      rw [diffSourceUpdate_eq, lookup_diffUpdate _ hndnf p]
      cases hv : dictLookup (flattenEntries F' []) p with
      | none => rfl
      | some v =>
        rw [hv] at heq
        simp only [Option.some_bind]
        cases hc : dictLookup (currentSourceValues st1.slots .yaml) p with
        | none =>
          exfalso
          unfold yamlValueAt at heq
          rw [← hcurrl p, hc] at heq
          cases heq
        | some ex =>
          have hvv : ex.value = v := by
            unfold yamlValueAt at heq
            rw [← hcurrl p, hc] at heq
            exact (Option.some.inj heq).symm
          simp [hvv]
    have hnotrem : p ∉ (diffSourceUpdate st1 .yaml F').1 := by
      rw [diffSourceUpdate_eq]
      cases hv : dictLookup (flattenEntries F' []) p with
      | some v => exact not_mem_removed _ _ p (by simp [dictMem, hv])
      | none =>
        apply not_mem_removed_of_no_entry
        rw [hv] at heq
        rw [hcurrl p]
        unfold yamlValueAt at heq
        cases hb : (dictLookup st1.slots p).bind (fun sl => sl.get .yaml) with
        | none => rfl
        | some sv =>
          rw [hb] at heq
          cases heq
    rw [replaceSource_yaml_eq]
    by_cases hcond : ((diffSourceUpdate st1 .yaml F').1.isEmpty &&
        (diffSourceUpdate st1 .yaml F').2.isEmpty) = true
    · rw [if_pos hcond]
    · rw [if_neg hcond]
      unfold winnerAt
      simp only
      rw [slotsWriteAll_lookup _ hndupd, hupd0,
        applyRemovals_lookup_notmem hnotrem]

/-- Witness for C2 at the spec's S2 scenario (numeric stand-ins): the yaml
rewrite overrides the name while the env-owned port keeps its winner. -/
theorem C2_lww_override_witness :
    wellFormedB ({} : Store Nat) = true ∧
    dictLookup
        (flattenEntries [("app", .node [("name", .leaf 2), ("port", .leaf 70)])] [])
        ["app", "name"] = some (.leaf 2) ∧
    yamlValueAt
        (Store.reset {}
          { yaml := [("app", .node [("name", .leaf 1), ("port", .leaf 70)])]
            env := [("app", .node [("port", .leaf 80)])] }).2 ["app", "name"] ≠
      some (.leaf 2) ∧
    winnerAt
        ((Store.reset {}
            { yaml := [("app", .node [("name", .leaf 1), ("port", .leaf 70)])]
              env := [("app", .node [("port", .leaf 80)])] }).2.replaceSource .yaml
          [("app", .node [("name", .leaf 2), ("port", .leaf 70)])]).2 ["app", "name"] =
      some (.yaml,
        ⟨(Store.reset {}
            { yaml := [("app", .node [("name", .leaf 1), ("port", .leaf 70)])]
              env := [("app", .node [("port", .leaf 80)])] }).2.rev + 1, .leaf 2⟩) ∧
    (dictLookup
        (flattenEntries [("app", .node [("name", .leaf 2), ("port", .leaf 70)])] [])
        ["app", "port"] =
      yamlValueAt
        (Store.reset {}
          { yaml := [("app", .node [("name", .leaf 1), ("port", .leaf 70)])]
            env := [("app", .node [("port", .leaf 80)])] }).2 ["app", "port"]) ∧
    winnerAt
        ((Store.reset {}
            { yaml := [("app", .node [("name", .leaf 1), ("port", .leaf 70)])]
              env := [("app", .node [("port", .leaf 80)])] }).2.replaceSource .yaml
          [("app", .node [("name", .leaf 2), ("port", .leaf 70)])]).2 ["app", "port"] =
      winnerAt
        (Store.reset {}
          { yaml := [("app", .node [("name", .leaf 1), ("port", .leaf 70)])]
            env := [("app", .node [("port", .leaf 80)])] }).2 ["app", "port"] := by
  have hwf : wellFormedB ({} : Store Nat) = true := by decide
  have h1 : dictLookup
      (flattenEntries [("app", NVal.node [("name", NVal.leaf 2), ("port", NVal.leaf 70)])] [])
      ["app", "name"] = some (NVal.leaf 2) := by
    simp [flattenEntries, dictUpdate, dictInsert, dictHasKey, dictLookup]
  have h2 : yamlValueAt
      (Store.reset ({} : Store Nat)
        { yaml := [("app", .node [("name", .leaf 1), ("port", .leaf 70)])]
          env := [("app", .node [("port", .leaf 80)])] }).2 ["app", "name"] ≠
      some (NVal.leaf 2) := by
    simp [Store.reset, buildSeedSlots, sourceOrder, slotsWriteAll, slotsWrite,
      flattenEntries, dictUpdate, dictInsert, dictHasKey, dictLookup, dictEqB,
      yamlValueAt, Slot.set, Slot.get, Src.priority, SourcesMap.get]
  have h3 : dictLookup
      (flattenEntries [("app", NVal.node [("name", NVal.leaf 2), ("port", NVal.leaf 70)])] [])
      ["app", "port"] =
      yamlValueAt
        (Store.reset ({} : Store Nat)
          { yaml := [("app", .node [("name", .leaf 1), ("port", .leaf 70)])]
            env := [("app", .node [("port", .leaf 80)])] }).2 ["app", "port"] := by
    simp [Store.reset, buildSeedSlots, sourceOrder, slotsWriteAll, slotsWrite,
      flattenEntries, dictUpdate, dictInsert, dictHasKey, dictLookup, dictEqB,
      yamlValueAt, Slot.set, Slot.get, Src.priority, SourcesMap.get]
  refine ⟨hwf, h1, h2, ?_, h3, ?_⟩
  · exact (C2_lww_override {}
      { yaml := [("app", .node [("name", .leaf 1), ("port", .leaf 70)])]
        env := [("app", .node [("port", .leaf 80)])] } hwf
      [("app", .node [("name", .leaf 2), ("port", .leaf 70)])]).1
      ["app", "name"] (.leaf 2) h1 h2
  · exact (C2_lww_override {}
      { yaml := [("app", .node [("name", .leaf 1), ("port", .leaf 70)])]
        env := [("app", .node [("port", .leaf 80)])] } hwf
      [("app", .node [("name", .leaf 2), ("port", .leaf 70)])]).2
      ["app", "port"] h3

/-- C3. Single-source `replace_source` calls that change the store stamp
every written slot entry with the one fresh revision `rev + 1`, strictly above
every revision present at the start of the call (every untouched entry keeps
its old revision `≤ rev`); and `_allocate_revs` hands the touched sources of a
multi-source call distinct consecutive fresh revisions in ascending
source-priority order, so the lowest-priority source gets the smallest new
revision and env still beats dotenv and yaml on the `(rev, priority)` rule. -/
theorem C3_revision_allocation {V : Type} [DecidableEq V] (st : Store V)
    (hw : wellRevB st = true) :
    (∀ (s : Src) (m : List (String × NVal V)),
        (st.replaceSource s m).1 = true →
          (st.replaceSource s m).2.rev = st.rev + 1 ∧
          (∀ p sl, dictLookup (st.replaceSource s m).2.slots p = some sl →
            ∀ s' sv, sl.get s' = some sv →
              (∃ sl0, dictLookup st.slots p = some sl0 ∧ sl0.get s' = some sv ∧
                sv.rev ≤ st.rev) ∨
              (s' = s ∧ sv.rev = st.rev + 1))) ∧
    (∀ ts : List Src,
        (allocateRevs st.rev ts).1.map Prod.snd =
          (List.range (sortSources ts).length).map (fun i => st.rev + i + 1) ∧
        (allocateRevs st.rev ts).2 = st.rev + (sortSources ts).length ∧
        (∀ s1 s2, s1 ∈ ts → s2 ∈ ts → s1.priority < s2.priority →
          ∃ r1 r2, dictLookup (allocateRevs st.rev ts).1 s1 = some r1 ∧
            dictLookup (allocateRevs st.rev ts).1 s2 = some r2 ∧
            st.rev < r1 ∧ r1 < r2)) := by
  constructor
  · intro s m hch
    have hndnf : ((flattenEntries m []).map Prod.fst).Nodup :=
      flattenEntries_keys_nodup m []
    have hndupd : (((diffSourceUpdate st s m).2).map Prod.fst).Nodup := by
      rw [diffSourceUpdate_eq]
      exact (filterMap_keys_sublist _
        (fun pv q h => by rw [diffUpdateFn_keyed _ pv q h]) _).nodup hndnf
    rw [replaceSource_eq] at hch ⊢
    by_cases hcond : ((diffSourceUpdate st s m).1.isEmpty &&
        (diffSourceUpdate st s m).2.isEmpty) = true
    · rw [if_pos hcond] at hch
      simp at hch
    · rw [if_neg hcond] at hch ⊢
      refine ⟨rfl, ?_⟩
      intro p sl hsl s' sv hsv
      simp only at hsl
      rw [slotsWriteAll_lookup _ hndupd] at hsl
      cases hup : dictLookup ((diffSourceUpdate st s m).2) p with
      | none =>
        simp only [hup] at hsl
        obtain ⟨sl0, hsl0, hget0⟩ := applyRemovals_lookup_entry hsl hsv
        exact Or.inl ⟨sl0, hsl0, hget0, entry_rev_le hw hsl0 hget0⟩
      | some v =>
        simp only [hup] at hsl
        have hsl' := Option.some.inj hsl
        rw [← hsl', Slot.get_set] at hsv
        by_cases hss : s' = s
        · rw [if_pos hss] at hsv
          exact Or.inr ⟨hss, by rw [← Option.some.inj hsv]⟩
        · rw [if_neg hss] at hsv
          cases hb : dictLookup
              (applyRemovals st.slots s (diffSourceUpdate st s m).1) p with
          | none =>
            rw [hb] at hsv
            simp only [Option.getD_none] at hsv
            rw [Slot.get_empty] at hsv
            cases hsv
          | some slb =>
            rw [hb] at hsv
            simp only [Option.getD_some] at hsv
            obtain ⟨sl0, hsl0, hget0⟩ := applyRemovals_lookup_entry hb hsv
            exact Or.inl ⟨sl0, hsl0, hget0, entry_rev_le hw hsl0 hget0⟩
  · intro ts
    by_cases hy : Src.yaml ∈ ts <;> by_cases hd : Src.dotenv ∈ ts <;>
      by_cases he : Src.env ∈ ts
    · have hsort : sortSources ts = [Src.yaml, Src.dotenv, Src.env] := by
        simp [sortSources, sourceOrder, List.filter_cons, hy, hd, he]
      refine ⟨?_, ?_, ?_⟩
      · simp [allocateRevs, hsort, List.enum, List.range_succ]
      · simp [allocateRevs, hsort]
      · intro s1 s2 h1 h2 hp
        cases s1 <;> cases s2 <;> simp [Src.priority] at hp
        · exact ⟨st.rev + 1, st.rev + 2,
            by simp [allocateRevs, hsort, List.enum, dictLookup],
            by simp [allocateRevs, hsort, List.enum, dictLookup], by omega, by omega⟩
        · exact ⟨st.rev + 1, st.rev + 3,
            by simp [allocateRevs, hsort, List.enum, dictLookup],
            by simp [allocateRevs, hsort, List.enum, dictLookup], by omega, by omega⟩
        · exact ⟨st.rev + 2, st.rev + 3,
            by simp [allocateRevs, hsort, List.enum, dictLookup],
            by simp [allocateRevs, hsort, List.enum, dictLookup], by omega, by omega⟩
    · have hsort : sortSources ts = [Src.yaml, Src.dotenv] := by
        simp [sortSources, sourceOrder, List.filter_cons, hy, hd, he]
      refine ⟨?_, ?_, ?_⟩
      · simp [allocateRevs, hsort, List.enum, List.range_succ]
      · simp [allocateRevs, hsort]
      · intro s1 s2 h1 h2 hp
        cases s1 <;> cases s2 <;> simp [Src.priority] at hp
        · exact ⟨st.rev + 1, st.rev + 2,
            by simp [allocateRevs, hsort, List.enum, dictLookup],
            by simp [allocateRevs, hsort, List.enum, dictLookup], by omega, by omega⟩
        · exact absurd h2 he
        · exact absurd h2 he
    · have hsort : sortSources ts = [Src.yaml, Src.env] := by
        simp [sortSources, sourceOrder, List.filter_cons, hy, hd, he]
      refine ⟨?_, ?_, ?_⟩
      · simp [allocateRevs, hsort, List.enum, List.range_succ]
      · simp [allocateRevs, hsort]
      · intro s1 s2 h1 h2 hp
        cases s1 <;> cases s2 <;> simp [Src.priority] at hp
        · exact absurd h2 hd
        · exact ⟨st.rev + 1, st.rev + 2,
            by simp [allocateRevs, hsort, List.enum, dictLookup],
            by simp [allocateRevs, hsort, List.enum, dictLookup], by omega, by omega⟩
        · exact absurd h1 hd
    · have hsort : sortSources ts = [Src.yaml] := by
        simp [sortSources, sourceOrder, List.filter_cons, hy, hd, he]
      refine ⟨?_, ?_, ?_⟩
      · simp [allocateRevs, hsort, List.enum, List.range_succ]
      · simp [allocateRevs, hsort]
      · intro s1 s2 h1 h2 hp
        cases s1 <;> cases s2 <;> simp [Src.priority] at hp
        · exact absurd h2 hd
        · exact absurd h2 he
        · exact absurd h1 hd
    · have hsort : sortSources ts = [Src.dotenv, Src.env] := by
        simp [sortSources, sourceOrder, List.filter_cons, hy, hd, he]
      refine ⟨?_, ?_, ?_⟩
      · simp [allocateRevs, hsort, List.enum, List.range_succ]
      · simp [allocateRevs, hsort]
      · intro s1 s2 h1 h2 hp
        cases s1 <;> cases s2 <;> simp [Src.priority] at hp
        · exact absurd h1 hy
        · exact absurd h1 hy
        · exact ⟨st.rev + 1, st.rev + 2,
            by simp [allocateRevs, hsort, List.enum, dictLookup],
            by simp [allocateRevs, hsort, List.enum, dictLookup], by omega, by omega⟩
    · have hsort : sortSources ts = [Src.dotenv] := by
        simp [sortSources, sourceOrder, List.filter_cons, hy, hd, he]
      refine ⟨?_, ?_, ?_⟩
      · simp [allocateRevs, hsort, List.enum, List.range_succ]
      · simp [allocateRevs, hsort]
      · intro s1 s2 h1 h2 hp
        cases s1 <;> cases s2 <;> simp [Src.priority] at hp
        · exact absurd h1 hy
        · exact absurd h1 hy
        · exact absurd h2 he
    · have hsort : sortSources ts = [Src.env] := by
        simp [sortSources, sourceOrder, List.filter_cons, hy, hd, he]
      refine ⟨?_, ?_, ?_⟩
      · simp [allocateRevs, hsort, List.enum, List.range_succ]
      · simp [allocateRevs, hsort]
      · intro s1 s2 h1 h2 hp
        cases s1 <;> cases s2 <;> simp [Src.priority] at hp
        · exact absurd h1 hy
        · exact absurd h1 hy
        · exact absurd h1 hd
    · have hsort : sortSources ts = [] := by
        simp [sortSources, sourceOrder, List.filter_cons, hy, hd, he]
      refine ⟨?_, ?_, ?_⟩
      · simp [allocateRevs, hsort, List.enum]
      · simp [allocateRevs, hsort]
      · intro s1 s2 h1 h2 hp
        cases s1 <;> cases s2 <;> simp [Src.priority] at hp
        · exact absurd h1 hy
        · exact absurd h1 hy
        · exact absurd h1 hd

/-- Concrete store for the C3 witness: one path with a yaml seed (rev 1) and
an env seed (rev 3), counter 3. -/
def stC3 : Store Nat :=
  { slots := [(["a"], { yaml := some ⟨1, .leaf 6⟩, env := some ⟨3, .leaf 5⟩ })]
    rev := 3
    version := 1
    cached := none }

/-- Witness for C3: an observably-changing yaml write bumps the counter to 4,
and a two-source allocation hands yaml and env ascending fresh revisions. -/
theorem C3_revision_allocation_witness :
    wellRevB stC3 = true ∧
    (stC3.replaceSource .yaml [("a", .leaf 7)]).1 = true ∧
    (stC3.replaceSource .yaml [("a", .leaf 7)]).2.rev = stC3.rev + 1 ∧
    (∃ r1 r2, dictLookup (allocateRevs stC3.rev [Src.yaml, Src.env]).1 .yaml = some r1 ∧
      dictLookup (allocateRevs stC3.rev [Src.yaml, Src.env]).1 .env = some r2 ∧
      stC3.rev < r1 ∧ r1 < r2) := by
  have hw : wellRevB stC3 = true := by decide
  have hdiff : diffSourceUpdate stC3 .yaml [("a", NVal.leaf 7)] =
      ([], [(["a"], NVal.leaf 7)]) := by
    simp [diffSourceUpdate, stC3, flattenEntries, dictUpdate, dictInsert, dictHasKey,
      currentSourceValues, dictLookup, dictMem, Slot.get]
  have hch : (stC3.replaceSource .yaml [("a", NVal.leaf 7)]).1 = true := by
    rw [replaceSource_eq, hdiff]
    simp
  refine ⟨hw, hch, ((C3_revision_allocation stC3 hw).1 .yaml [("a", .leaf 7)] hch).1, ?_⟩
  exact ((C3_revision_allocation stC3 hw).2 [Src.yaml, Src.env]).2.2 .yaml .env
    (by decide) (by decide) (by decide)

theorem filterMap_eq_nil_iff {α β : Type} (f : α → Option β) (l : List α) :
    l.filterMap f = [] ↔ ∀ a ∈ l, f a = none := by
  induction l with
  | nil => simp
  | cons a rest ih =>
    cases hf : f a with
    | none => simp [List.filterMap_cons, hf, ih]
    | some b => simp [List.filterMap_cons, hf]

theorem mem_sourceOrder (s : Src) : s ∈ sourceOrder := by
  cases s <;> simp [sourceOrder]

theorem planSourceUpdates_isEmpty_iff {V : Type} [DecidableEq V]
    (st : Store V) (u : UpdatesMap V) :
    (planSourceUpdates st u).isEmpty = true ↔
      ∀ s m, u.get s = some m →
        (diffSourceUpdate st s m).1 = [] ∧ (diffSourceUpdate st s m).2 = [] := by
  rw [List.isEmpty_iff]
  unfold planSourceUpdates
  rw [filterMap_eq_nil_iff]
  constructor
  · intro h s m hm
    have hs := h s (mem_sourceOrder s)
    rw [hm] at hs
    simp only [Option.some_bind] at hs
    by_cases hc : ((diffSourceUpdate st s m).1.isEmpty &&
        (diffSourceUpdate st s m).2.isEmpty) = true
    · obtain ⟨hc1, hc2⟩ := (Bool.and_eq_true _ _).mp hc
      exact ⟨List.isEmpty_iff.mp hc1, List.isEmpty_iff.mp hc2⟩
    · rw [if_neg hc] at hs
      cases hs
  · intro h s _
    cases hm : u.get s with
    | none => rfl
    | some m =>
      simp only [Option.some_bind]
      obtain ⟨h1, h2⟩ := h s m hm
      rw [if_pos (by simp [h1, h2])]

/-- C4. A `replace_sources` call whose payload leaves every provided
source's flattened diff empty returns `False`, leaves the whole store (so in
particular `version` and the next `materialize()` result) untouched; a call
that observes a change returns `True`, bumps `version` by exactly one
(strictly increasing it) and clears the cached merged view. -/
theorem C4_version_counter {V : Type} [DecidableEq V] (st : Store V)
    (u : UpdatesMap V) :
    ((st.replaceSources u).1 = false ↔
        ∀ s m, u.get s = some m →
          (diffSourceUpdate st s m).1 = [] ∧ (diffSourceUpdate st s m).2 = []) ∧
    ((st.replaceSources u).1 = false →
        (st.replaceSources u).2 = st ∧
        ((st.replaceSources u).2.materialize).1 = (st.materialize).1) ∧
    ((st.replaceSources u).1 = true →
        (st.replaceSources u).2.version = st.version + 1 ∧
        st.version < (st.replaceSources u).2.version ∧
        (st.replaceSources u).2.cached = none) := by
  unfold Store.replaceSources
  by_cases hpl : (planSourceUpdates st u).isEmpty = true
  · rw [if_pos hpl]
    refine ⟨?_, ?_, ?_⟩
    · simp only [true_iff]
      exact (planSourceUpdates_isEmpty_iff st u).mp hpl
    · intro _
      exact ⟨rfl, rfl⟩
    · intro h
      cases h
  · rw [if_neg hpl]
    refine ⟨?_, ?_, ?_⟩
    · constructor
      · intro h
        cases h
      · intro h
        exact absurd ((planSourceUpdates_isEmpty_iff st u).mpr h) hpl
    · intro h
      cases h
    · intro _
      exact ⟨rfl, by simp, rfl⟩

/-- Concrete store for the C4 witness. -/
def stC4 : Store Nat :=
  { slots := [(["a"], { yaml := some ⟨1, .leaf 6⟩, env := some ⟨3, .leaf 5⟩ })]
    rev := 3
    version := 1
    cached := none }

/-- Witness for C4: on a concrete store, an env payload equal to the stored
env values is a no-op (`False`, store unchanged), while a changed env payload
returns `True`, bumps the version and clears the cache. -/
theorem C4_version_counter_witness :
    (stC4.replaceSources { env := some [("a", .leaf 5)] }).1 = false ∧
    (stC4.replaceSources { env := some [("a", .leaf 5)] }).2 = stC4 ∧
    ((stC4.replaceSources { env := some [("a", .leaf 5)] }).2.materialize).1 =
      (stC4.materialize).1 ∧
    (stC4.replaceSources { env := some [("a", .leaf 9)] }).1 = true ∧
    (stC4.replaceSources { env := some [("a", .leaf 9)] }).2.version =
      stC4.version + 1 ∧
    (stC4.replaceSources { env := some [("a", .leaf 9)] }).2.cached = none := by
  have hfalse : (stC4.replaceSources { env := some [("a", NVal.leaf 5)] }).1 = false := by
    apply (C4_version_counter stC4 { env := some [("a", NVal.leaf 5)] }).1.mpr
    intro s m hm
    cases s <;> simp only [UpdatesMap.get] at hm
    case yaml => cases hm
    case dotenv => cases hm
    case env =>
      cases hm
      constructor <;>
        simp [diffSourceUpdate, stC4, flattenEntries, dictUpdate, dictInsert,
          dictHasKey, currentSourceValues, dictLookup, dictMem, Slot.get]
  have hdiff9 : diffSourceUpdate stC4 .env [("a", NVal.leaf 9)] =
      ([], [(["a"], NVal.leaf 9)]) := by
    simp [diffSourceUpdate, stC4, flattenEntries, dictUpdate, dictInsert,
      dictHasKey, currentSourceValues, dictLookup, dictMem, Slot.get]
  have htrue : (stC4.replaceSources { env := some [("a", NVal.leaf 9)] }).1 = true := by
    show (stC4.replaceSource .env [("a", NVal.leaf 9)]).1 = true
    rw [replaceSource_eq, hdiff9]
    simp
  obtain ⟨hst, hmat⟩ := (C4_version_counter stC4 { env := some [("a", NVal.leaf 5)] }).2.1 hfalse
  obtain ⟨hv, _, hc⟩ := (C4_version_counter stC4 { env := some [("a", NVal.leaf 9)] }).2.2 htrue
  exact ⟨hfalse, hst, hmat, htrue, hv, hc⟩

/-! ## `control_convergence.py`: the settings-path convergence loop

`converge_control_source` repeatedly materialises the control snapshot and
rebuilds a `SettingsSource`; the claim models the composite
`build_source_from_controls(materialize_control_snapshot())` as a function of
the current `settings_path` (each iteration's snapshot is determined by the
path it was read from).  `stabilize_path` in the manager is
`replace(next_source, settings_path=current.settings_path)`.  The `Nat` in
the result counts `logger.warning` calls; the loop is given explicit fuel and
the termination theorem shows enough fuel always exists. -/

/-- Embedding of `SupportsSettingsPath`: a source with a `settings_path` and extra payload
compared by structural equality (Python `==` on the frozen dataclass). -/
structure CSource (P : Type) (B : Type) where
  settings_path : P
  payload : B
deriving DecidableEq

/-- Embedding of `replace(next_source, settings_path=current_path)`. -/
def stabilizePath {P B : Type} (src : CSource P B) (p : P) : CSource P B :=
  { src with settings_path := p }

/-- One fuel-indexed run of the `while True` loop of
`converge_control_source`; returns `(source, changed, warnings)` or `none`
when the fuel runs out before the loop returns. -/
def convergeLoop {P B : Type} [DecidableEq P] [DecidableEq B]
    (next : P → CSource P B) :
    Nat → CSource P B → Bool → Finset P → Option (CSource P B × Bool × Nat)
  | 0, _, _, _ => none
  | fuel + 1, source, changed, visited =>
    let nextSource := next source.settings_path
    if nextSource.settings_path ≠ source.settings_path then
      if nextSource.settings_path ∈ visited then
        let stabilized := stabilizePath nextSource source.settings_path
        some (stabilized, changed || decide (stabilized ≠ source), 1)
      else
        convergeLoop next fuel nextSource true
          (insert nextSource.settings_path visited)
    else if nextSource ≠ source then some (nextSource, true, 0)
    else some (source, changed, 0)

/-- Embedding of `converge_control_source` proper: the loop started from the initial
source with `visited = {initial.settings_path}` and `changed = False`. -/
def convergeControlSource {P B : Type} [DecidableEq P] [DecidableEq B]
    (next : P → CSource P B) (fuel : Nat) (initial : CSource P B) :
    Option (CSource P B × Bool × Nat) :=
  convergeLoop next fuel initial false {initial.settings_path}

theorem convergeLoop_isSome {P B : Type} [DecidableEq P] [DecidableEq B]
    (next : P → CSource P B) (R : Finset P)
    (hclosed : ∀ p ∈ R, (next p).settings_path ∈ R) :
    ∀ (fuel : Nat) (source : CSource P B) (changed : Bool) (visited : Finset P),
      source.settings_path ∈ visited → visited ⊆ R →
      R.card - visited.card < fuel →
      (convergeLoop next fuel source changed visited).isSome = true := by
  intro fuel
  induction fuel with
  | zero =>
    intro source changed visited _ _ h3
    omega
  | succ n ih =>
    intro source changed visited h1 h2 h3
    simp only [convergeLoop]
    by_cases hne : (next source.settings_path).settings_path ≠ source.settings_path
    · rw [if_pos hne]
      by_cases hv : (next source.settings_path).settings_path ∈ visited
      · rw [if_pos hv]
        rfl
      · rw [if_neg hv]
        apply ih
        · exact Finset.mem_insert_self _ _
        · intro x hx
          rcases Finset.mem_insert.mp hx with hx | hx
          · rw [hx]
            exact hclosed _ (h2 h1)
          · exact h2 hx
        · have hsub : visited ⊂ R := by
            refine ⟨h2, ?_⟩
            intro hRv
            exact hv (hRv (hclosed _ (h2 h1)))
          have hlt : visited.card < R.card := Finset.card_lt_card hsub
          have hins : (insert (next source.settings_path).settings_path visited).card
              = visited.card + 1 := Finset.card_insert_of_not_mem hv
          omega
    · rw [if_neg hne]
      by_cases hsv : next source.settings_path ≠ source
      · rw [if_pos hsv]
        rfl
      · rw [if_neg hsv]
        rfl

/-- C5. The control convergence loop terminates: every continuing
iteration moves to a path not yet in the visited set, so with the reachable
path set `R` closed under the redirect function, fuel `R.card` suffices (at
most `N` iterations for `N` distinct reachable settings paths); when a
redirect targets an already-visited path, the loop returns immediately on the
previously accepted path (the stabilized source keeps `source.settings_path`)
with the cycle warning logged exactly once, and no run of the loop ever logs
the warning more than once. -/
theorem C5_control_convergence {P B : Type} [DecidableEq P] [DecidableEq B]
    (next : P → CSource P B) (initial : CSource P B) (R : Finset P)
    (hinit : initial.settings_path ∈ R)
    (hclosed : ∀ p ∈ R, (next p).settings_path ∈ R) :
    (convergeControlSource next R.card initial).isSome = true ∧
    (∀ (fuel : Nat) (source : CSource P B) (changed : Bool) (visited : Finset P),
        0 < fuel →
        (next source.settings_path).settings_path ≠ source.settings_path →
        (next source.settings_path).settings_path ∈ visited →
        convergeLoop next fuel source changed visited =
          some (stabilizePath (next source.settings_path) source.settings_path,
            changed || decide (stabilizePath (next source.settings_path)
              source.settings_path ≠ source), 1) ∧
        (stabilizePath (next source.settings_path)
            source.settings_path).settings_path = source.settings_path) ∧
    (∀ (fuel : Nat) (source : CSource P B) (changed : Bool) (visited : Finset P)
        (out : CSource P B × Bool × Nat),
        convergeLoop next fuel source changed visited = some out →
        out.2.2 ≤ 1) := by
  refine ⟨?_, ?_, ?_⟩
  · apply convergeLoop_isSome next R hclosed
    · exact Finset.mem_singleton_self _
    · intro x hx
      rw [Finset.mem_singleton.mp hx]
      exact hinit
    · have h1 : 1 ≤ R.card := Finset.card_pos.mpr ⟨_, hinit⟩
      rw [Finset.card_singleton]
      omega
  · intro fuel source changed visited hfuel hne hv
    cases fuel with
    | zero => omega
    | succ n =>
      refine ⟨?_, rfl⟩
      simp only [convergeLoop]
      rw [if_pos hne, if_pos hv]
  · intro fuel
    induction fuel with
    | zero =>
      intro source changed visited out h
      cases h
    | succ n ih =>
      intro source changed visited out h
      simp only [convergeLoop] at h
      by_cases hne : (next source.settings_path).settings_path ≠ source.settings_path
      · rw [if_pos hne] at h
        by_cases hv : (next source.settings_path).settings_path ∈ visited
        · rw [if_pos hv] at h
          cases h
          simp
        · rw [if_neg hv] at h
          exact ih _ _ _ _ h
      · rw [if_neg hne] at h
        by_cases hsv : next source.settings_path ≠ source
        · rw [if_pos hsv] at h
          cases h
          simp
        · rw [if_neg hsv] at h
          cases h
          simp

/-- Witness for C5: the spec's S4 two-cycle (`0 → 1 → 0`): convergence with
fuel `|{0,1}| = 2` completes, and the cycle step freezes on the current path
`1` with exactly one warning. -/
theorem C5_control_convergence_witness :
    ((0 : Nat) ∈ ({0, 1} : Finset Nat)) ∧
    (convergeControlSource
        (fun p => if p = 0 then (⟨1, ()⟩ : CSource Nat Unit) else ⟨0, ()⟩)
        ({0, 1} : Finset Nat).card ⟨0, ()⟩).isSome = true ∧
    convergeLoop
        (fun p => if p = 0 then (⟨1, ()⟩ : CSource Nat Unit) else ⟨0, ()⟩)
        1 ⟨1, ()⟩ true ({0, 1} : Finset Nat) =
      some (⟨1, ()⟩, true, 1) := by
  have hinit : (0 : Nat) ∈ ({0, 1} : Finset Nat) := by decide
  have hclosed : ∀ p ∈ ({0, 1} : Finset Nat),
      ((fun p => if p = 0 then (⟨1, ()⟩ : CSource Nat Unit) else ⟨0, ()⟩)
        p).settings_path ∈ ({0, 1} : Finset Nat) := by decide
  refine ⟨hinit, ?_, ?_⟩
  · exact (C5_control_convergence
      (fun p => if p = 0 then (⟨1, ()⟩ : CSource Nat Unit) else ⟨0, ()⟩)
      ⟨0, ()⟩ {0, 1} hinit hclosed).1
  · have h := (C5_control_convergence
      (fun p => if p = 0 then (⟨1, ()⟩ : CSource Nat Unit) else ⟨0, ()⟩)
      ⟨0, ()⟩ {0, 1} hinit hclosed).2.1 1 ⟨1, ()⟩ true {0, 1}
      (by decide) (by decide) (by decide)
    rw [h.1]
    rfl

/-! ## Python string primitives

Modelled structurally over `String.data` (code-point lists), matching
Python's code-point based slicing and splitting; `lower`/`upper`/`casefold`
are ASCII case mappings, which agree with Python on the identifiers the
claims exercise. -/

def charLower : Char → Char
  | 'A' => 'a' | 'B' => 'b' | 'C' => 'c' | 'D' => 'd' | 'E' => 'e' | 'F' => 'f'
  | 'G' => 'g' | 'H' => 'h' | 'I' => 'i' | 'J' => 'j' | 'K' => 'k' | 'L' => 'l'
  | 'M' => 'm' | 'N' => 'n' | 'O' => 'o' | 'P' => 'p' | 'Q' => 'q' | 'R' => 'r'
  | 'S' => 's' | 'T' => 't' | 'U' => 'u' | 'V' => 'v' | 'W' => 'w' | 'X' => 'x'
  | 'Y' => 'y' | 'Z' => 'z' | c => c

def charUpper : Char → Char
  | 'a' => 'A' | 'b' => 'B' | 'c' => 'C' | 'd' => 'D' | 'e' => 'E' | 'f' => 'F'
  | 'g' => 'G' | 'h' => 'H' | 'i' => 'I' | 'j' => 'J' | 'k' => 'K' | 'l' => 'L'
  | 'm' => 'M' | 'n' => 'N' | 'o' => 'O' | 'p' => 'P' | 'q' => 'Q' | 'r' => 'R'
  | 's' => 'S' | 't' => 'T' | 'u' => 'U' | 'v' => 'V' | 'w' => 'W' | 'x' => 'X'
  | 'y' => 'Y' | 'z' => 'Z' | c => c

/-- Embedding of `str.lower()` (ASCII). -/
def pyLower (s : String) : String := String.mk (s.data.map charLower)

/-- Embedding of `str.upper()` (ASCII). -/
def pyUpper (s : String) : String := String.mk (s.data.map charUpper)

/-- ASCII whitespace recognised by `str.strip()`. -/
def isPySpace (c : Char) : Bool := c.toNat = 32 || (9 ≤ c.toNat && c.toNat ≤ 13)

/-- Embedding of `str.strip()`. -/
def pyTrim (s : String) : String :=
  String.mk (((s.data.dropWhile isPySpace).reverse.dropWhile isPySpace).reverse)

/-- Embedding of `str.startswith(prefix)`. -/
def pyStartsWith (s prefx : String) : Bool := prefx.data.isPrefixOf s.data

/-- Embedding of `str.endswith(suffix)`. -/
def pyEndsWith (s suffix : String) : Bool :=
  suffix.data.reverse.isPrefixOf s.data.reverse

/-- Code-point slicing `s[n:]`. -/
def pyDrop (s : String) (n : Nat) : String := String.mk (s.data.drop n)

/-- Embedding of `len(s)` in code points. -/
def pyLength (s : String) : Nat := s.data.length

/-- Embedding of `str.split(sep)` for a one-character separator. -/
def splitOnCharAux (sep : Char) : List Char → List (List Char)
  | [] => [[]]
  | c :: rest =>
    if c = sep then [] :: splitOnCharAux sep rest
    else
      match splitOnCharAux sep rest with
      | [] => [[c]]
      | g :: gs => (c :: g) :: gs

def splitOnChar (sep : Char) (s : String) : List String :=
  (splitOnCharAux sep s.data).map String.mk

/-- Embedding of `str.split("__")`: greedy left-to-right, non-overlapping. -/
def splitDunderAux : List Char → List (List Char)
  | [] => [[]]
  | '_' :: '_' :: rest => [] :: splitDunderAux rest
  | c :: rest =>
    match splitDunderAux rest with
    | [] => [[c]]
    | g :: gs => (c :: g) :: gs

def splitDunder (s : String) : List String := (splitDunderAux s.data).map String.mk

/-! ## `registry.py`: the schema registry

`type[BaseModel]` values are compared by identity (`is`); they are modelled
by numeric model ids.  The `isinstance(cls, type) and issubclass(cls,
BaseModel)` and `kind in {"object", "map"}` guards raise before any mutation
and are made unrepresentable by the closed `SectionKind` type and the model-id
domain.  `SettingsRegistrationError` propagation is modelled by an error flag:
`registerSection` returns the post-call registry plus whether it raised. -/

inductive SectionKind where
  | object
  | map
deriving DecidableEq

/-- Embedding of `_SectionRecord`. -/
structure SectionRecord where
  raw_path : String
  model : Nat
  kind : SectionKind
  owner_module : String
  owner_identity : Nat
deriving DecidableEq

/-- Embedding of `SettingsSection`. -/
structure RSection where
  raw_path : String
  path : List String
  model : Nat
  kind : SectionKind
  owner_module : String
  owner_identity : Nat
deriving DecidableEq

/-- Embedding of `SettingsRegistry` state. -/
structure Registry where
  records : List (Nat × SectionRecord) := []
  sections : List (List String × RSection) := []
  version : Nat := 0
deriving DecidableEq

/-- Embedding of `split_dotted_path`: split on `.`, strip each part, reject empties. -/
def splitDottedPath (raw : String) : Option (List String) :=
  let parts := (splitOnChar '.' raw).map pyTrim
  if parts.isEmpty || parts.any (· = "") then none else some parts

/-- Embedding of `CONTROL_ROOT` resolves to the snake-case section name `fastapiex`;
`_RESERVED_ROOT` is its upper-casing. -/
def CONTROL_ROOT : String := "fastapiex"

/-- Embedding of `canonicalize_path`: reject the reserved control root (compared folded). -/
def canonicalizePath (raw : String) : Option (List String) :=
  match splitDottedPath raw with
  | none => none
  | some parts =>
    if pyLower (parts.headD "") = pyLower (pyUpper CONTROL_ROOT) then none
    else some parts

/-- Embedding of `SettingsRegistry._reindex`, returning the fresh `sections_by_path` or
`none` when a `SettingsRegistrationError` is raised (empty segment, reserved
root, or duplicate path on a different model). -/
def reindexRecords (records : List (Nat × SectionRecord)) :
    Option (List (List String × RSection)) :=
  records.foldl
    (fun acc mr =>
      acc.bind (fun sections =>
        match canonicalizePath mr.2.raw_path with
        | none => none
        | some path =>
          let sec : RSection :=
            ⟨mr.2.raw_path, path, mr.2.model, mr.2.kind, mr.2.owner_module,
              mr.2.owner_identity⟩
          match dictLookup sections path with
          | some existing =>
            if existing.model ≠ mr.2.model then none
            else some (dictInsert sections path sec)
          | none => some (dictInsert sections path sec)))
    (some [])

/-- Embedding of `SettingsRegistry.register_section`: owner-generation cleanup, the
idempotence check, then reindex with rollback on error.  The returned flag
records whether `SettingsRegistrationError` was raised. -/
def registerSection (reg : Registry) (rawPath : String) (model : Nat)
    (kind : SectionKind) (ownerModule : String) (ownerIdentity : Nat) :
    Registry × Bool :=
  let cleaned := reg.records.filter
    (fun mr => !(mr.2.owner_module = ownerModule && mr.2.owner_identity ≠ ownerIdentity))
  let candidate : SectionRecord := ⟨rawPath, model, kind, ownerModule, ownerIdentity⟩
  if dictLookup cleaned model = some candidate then
    ({ reg with records := cleaned }, false)
  else
    let records' := dictInsert cleaned model candidate
    match reindexRecords records' with
    | some sections' =>
      ({ records := records', sections := sections', version := reg.version + 1 },
        false)
    | none => (reg, true)

/-- C6. (1) Re-registering a record identical to an already-stored one
returns without raising and changes neither `version` nor the
sections-by-path index; (2) whenever `register_section` raises a
`SettingsRegistrationError`, the registry (records, sections index and
version) is exactly as before the call — the failed registration rolls back
atomically and does not poison the registry. -/
theorem C6_registry_idempotent_rollback (reg : Registry) (rawPath : String)
    (model : Nat) (kind : SectionKind) (ownerModule : String)
    (ownerIdentity : Nat) :
    (dictLookup reg.records model =
        some ⟨rawPath, model, kind, ownerModule, ownerIdentity⟩ →
      (registerSection reg rawPath model kind ownerModule ownerIdentity).2 = false ∧
      (registerSection reg rawPath model kind ownerModule ownerIdentity).1.version =
        reg.version ∧
      (registerSection reg rawPath model kind ownerModule ownerIdentity).1.sections =
        reg.sections) ∧
    ((registerSection reg rawPath model kind ownerModule ownerIdentity).2 = true →
      (registerSection reg rawPath model kind ownerModule ownerIdentity).1 = reg) := by
  constructor
  · intro h
    have hclean : dictLookup
        (reg.records.filter (fun mr =>
          !(mr.2.owner_module = ownerModule && mr.2.owner_identity ≠ ownerIdentity)))
        model = some ⟨rawPath, model, kind, ownerModule, ownerIdentity⟩ := by
      apply dictLookup_filter h
      simp
    unfold registerSection
    rw [if_pos hclean]
    exact ⟨rfl, rfl, rfl⟩
  · intro h
    unfold registerSection at h ⊢
    by_cases hid : dictLookup
        (reg.records.filter (fun mr =>
          !(mr.2.owner_module = ownerModule && mr.2.owner_identity ≠ ownerIdentity)))
        model = some ⟨rawPath, model, kind, ownerModule, ownerIdentity⟩
    · rw [if_pos hid] at h
      cases h
    · rw [if_neg hid] at h ⊢
      cases hrx : reindexRecords
          (dictInsert
            (reg.records.filter (fun mr =>
              !(mr.2.owner_module = ownerModule && mr.2.owner_identity ≠ ownerIdentity)))
            model ⟨rawPath, model, kind, ownerModule, ownerIdentity⟩) with
      | some sections' =>
        simp only [hrx] at h
        cases h
      | none =>
        simp only [hrx]

/-- Concrete registry for the C6 witness. -/
def regC6 : Registry :=
  { records := [(7, ⟨"app.db", 7, .object, "mod", 1⟩)]
    sections := [(["app", "db"], ⟨"app.db", ["app", "db"], 7, .object, "mod", 1⟩)]
    version := 5 }

/-- Witness for C6: re-registering the stored record keeps version 5 and does
not raise; registering a reserved-root path raises and leaves the registry
exactly as it was. -/
theorem C6_registry_idempotent_rollback_witness :
    dictLookup regC6.records 7 = some ⟨"app.db", 7, .object, "mod", 1⟩ ∧
    (registerSection regC6 "app.db" 7 .object "mod" 1).2 = false ∧
    (registerSection regC6 "app.db" 7 .object "mod" 1).1.version = regC6.version ∧
    (registerSection regC6 "fastapiex.x" 8 .object "mod" 1).2 = true ∧
    (registerSection regC6 "fastapiex.x" 8 .object "mod" 1).1 = regC6 := by
  have h1 : dictLookup regC6.records 7 =
      some ⟨"app.db", 7, SectionKind.object, "mod", 1⟩ := by decide
  have h2 : (registerSection regC6 "fastapiex.x" 8 .object "mod" 1).2 = true := by
    decide
  obtain ⟨ha, hb, _⟩ :=
    (C6_registry_idempotent_rollback regC6 "app.db" 7 .object "mod" 1).1 h1
  exact ⟨h1, ha, hb, h2,
    (C6_registry_idempotent_rollback regC6 "fastapiex.x" 8 .object "mod" 1).2 h2⟩

/-! ## `path_lookup.py`: string path resolution over the validated root

A validated root value is either a `Mapping` (`map`), a pydantic model
(`model`, walked through `model_fields`/`getattr`), or any other value
(`val`, on which a further walk step raises `KeyError`).  `KeyError` misses
are modelled by `none`. -/

inductive RootVal (V : Type) where
  | val (v : V)
  | map (entries : List (String × RootVal V))
  | model (fields : List (String × RootVal V))

mutual

def RootVal.decEq {V : Type} [DecidableEq V] : (a b : RootVal V) → Decidable (a = b)
  | .val x, .val y =>
    match inferInstanceAs (Decidable (x = y)) with
    | isTrue h => isTrue (by rw [h])
    | isFalse h => isFalse (fun hh => h (by injection hh))
  | .val _, .map _ => isFalse (fun hh => RootVal.noConfusion hh)
  | .val _, .model _ => isFalse (fun hh => RootVal.noConfusion hh)
  | .map _, .val _ => isFalse (fun hh => RootVal.noConfusion hh)
  | .map _, .model _ => isFalse (fun hh => RootVal.noConfusion hh)
  | .model _, .val _ => isFalse (fun hh => RootVal.noConfusion hh)
  | .model _, .map _ => isFalse (fun hh => RootVal.noConfusion hh)
  | .map es1, .map es2 =>
    match RootVal.decEqEntries es1 es2 with
    | isTrue h => isTrue (by rw [h])
    | isFalse h => isFalse (fun hh => h (by injection hh))
  | .model es1, .model es2 =>
    match RootVal.decEqEntries es1 es2 with
    | isTrue h => isTrue (by rw [h])
    | isFalse h => isFalse (fun hh => h (by injection hh))

def RootVal.decEqEntries {V : Type} [DecidableEq V] :
    (a b : List (String × RootVal V)) → Decidable (a = b)
  | [], [] => isTrue rfl
  | [], _ :: _ => isFalse (fun hh => List.noConfusion hh)
  | _ :: _, [] => isFalse (fun hh => List.noConfusion hh)
  | (k1, v1) :: r1, (k2, v2) :: r2 =>
    match inferInstanceAs (Decidable (k1 = k2)) with
    | isFalse h =>
      isFalse (fun hh => by
        injection hh with h1 h2
        exact h (congrArg Prod.fst h1))
    | isTrue hk =>
      match RootVal.decEq v1 v2 with
      | isFalse h =>
        isFalse (fun hh => by
          injection hh with h1 h2
          exact h (congrArg Prod.snd h1))
      | isTrue hv =>
        match RootVal.decEqEntries r1 r2 with
        | isFalse h => isFalse (fun hh => by injection hh with h1 h2; exact h h2)
        | isTrue hr => isTrue (by rw [hk, hv, hr])

end

instance {V : Type} [DecidableEq V] : DecidableEq (RootVal V) := RootVal.decEq

/-- Embedding of `_split_lookup_path`: split on `.`, strip, reject empty segments. -/
def splitLookupPath (path : String) : Option (List String) :=
  let parts := (splitOnChar '.' path).map pyTrim
  if parts.isEmpty || parts.any (· = "") then none else some parts

/-- Embedding of `_resolve_mapping_value`. -/
def resolveMappingValue {V : Type} (es : List (String × RootVal V))
    (segment : String) (caseSensitive : Bool) : Option (RootVal V) :=
  if caseSensitive then dictLookup es segment
  else
    let folded := pyLower segment
    match (es.map Prod.fst).filter (fun k => pyLower k = folded) with
    | [m] => dictLookup es m
    | _ => none

/-- Embedding of `_resolve_model_field`. -/
def resolveModelField {V : Type} (fields : List (String × RootVal V))
    (segment : String) (caseSensitive : Bool) : Option (RootVal V) :=
  if caseSensitive then dictLookup fields segment
  else
    let folded := pyLower segment
    match (fields.map Prod.fst).filter (fun k => pyLower k = folded) with
    | [m] => dictLookup fields m
    | _ => none

/-- The walk of `resolve_lookup_path`: each step recomputes
`effective_case_sensitive = case_sensitive and not reserved`. -/
def walkSegments {V : Type} (reserved caseSensitive : Bool) :
    RootVal V → List String → Option (RootVal V)
  | current, [] => some current
  | current, seg :: rest =>
    let effective := caseSensitive && !reserved
    match current with
    | .map es =>
      (resolveMappingValue es seg effective).bind
        (fun v => walkSegments reserved caseSensitive v rest)
    | .model fs =>
      (resolveModelField fs seg effective).bind
        (fun v => walkSegments reserved caseSensitive v rest)
    | .val _ => none

/-- Embedding of `resolve_lookup_path`. -/
def resolveLookupPath {V : Type} (root : RootVal V) (path : String)
    (caseSensitive : Bool) : Option (RootVal V) :=
  match splitLookupPath path with
  | none => none
  | some segments =>
    let reserved := !segments.isEmpty &&
      (pyLower (segments.headD "") = "fastapiex" : Bool)
    walkSegments reserved caseSensitive root segments

theorem resolveMappingValue_folded_congr {V : Type}
    (es : List (String × RootVal V)) {a b : String} (hab : pyLower a = pyLower b) :
    resolveMappingValue es a false = resolveMappingValue es b false := by
  simp [resolveMappingValue, hab]

theorem resolveModelField_folded_congr {V : Type}
    (fs : List (String × RootVal V)) {a b : String} (hab : pyLower a = pyLower b) :
    resolveModelField fs a false = resolveModelField fs b false := by
  simp [resolveModelField, hab]

theorem walkSegments_folded_congr {V : Type} (cs : Bool) :
    ∀ (l1 l2 : List String) (root : RootVal V),
      l1.map pyLower = l2.map pyLower →
      walkSegments true cs root l1 = walkSegments true cs root l2 := by
  intro l1
  induction l1 with
  | nil =>
    intro l2 root h
    cases l2 with
    | nil => rfl
    | cons b l2' => cases h
  | cons a l1' ih =>
    intro l2 root h
    cases l2 with
    | nil => cases h
    | cons b l2' =>
      simp only [List.map_cons, List.cons.injEq] at h
      obtain ⟨hab, hrest⟩ := h
      cases root with
      | val v => simp [walkSegments]
      | map es =>
        simp only [walkSegments, Bool.not_true, Bool.and_false]
        rw [resolveMappingValue_folded_congr es hab]
        cases resolveMappingValue es b false with
        | none => rfl
        | some v => exact ih l2' v hrest
      | model fs =>
        simp only [walkSegments, Bool.not_true, Bool.and_false]
        rw [resolveModelField_folded_congr fs hab]
        cases resolveModelField fs b false with
        | none => rfl
        | some v => exact ih l2' v hrest

/-- C7. For any validated root, any case policy, and any two dotted paths
whose segments agree after case folding and whose first segment folds to the
reserved control root, string resolution produces identical results (the same
value or the same miss): inside the control namespace every step is compared
folded regardless of the active policy. -/
theorem C7_control_always_folded {V : Type} (root : RootVal V) (cs : Bool)
    (p1 p2 : String) (s1 s2 : List String)
    (h1 : splitLookupPath p1 = some s1) (h2 : splitLookupPath p2 = some s2)
    (hfold : s1.map pyLower = s2.map pyLower)
    (hres : pyLower (s1.headD "") = "fastapiex") :
    resolveLookupPath root p1 cs = resolveLookupPath root p2 cs := by
  have hne1 : s1 ≠ [] := by
    unfold splitLookupPath at h1
    by_cases hc : ((splitOnChar '.' p1).map pyTrim).isEmpty ||
        ((splitOnChar '.' p1).map pyTrim).any (· = "")
    · rw [if_pos hc] at h1
      cases h1
    · rw [if_neg hc] at h1
      have heq := Option.some.inj h1
      intro hnil
      rw [hnil] at heq
      rw [heq] at hc
      simp at hc
  have hne2 : s2 ≠ [] := by
    intro hnil
    rw [hnil] at hfold
    simp only [List.map_nil, List.map_eq_nil_iff] at hfold
    exact hne1 hfold
  have hres2 : pyLower (s2.headD "") = "fastapiex" := by
    cases s1 with
    | nil => exact absurd rfl hne1
    | cons a l1 =>
      cases s2 with
      | nil => exact absurd rfl hne2
      | cons b l2 =>
        simp only [List.map_cons, List.cons.injEq] at hfold
        simp only [List.headD_cons] at hres ⊢
        rw [← hfold.1]
        exact hres
  unfold resolveLookupPath
  rw [h1, h2]
  simp only
  have hr1 : (!s1.isEmpty && (pyLower (s1.headD "") = "fastapiex" : Bool)) = true := by
    cases s1 with
    | nil => exact absurd rfl hne1
    | cons a l => simpa using hres
  have hr2 : (!s2.isEmpty && (pyLower (s2.headD "") = "fastapiex" : Bool)) = true := by
    cases s2 with
    | nil => exact absurd rfl hne2
    | cons a l => simpa using hres2
  rw [hr1, hr2]
  exact walkSegments_folded_congr cs s1 s2 root hfold

/-- Witness for C7: under the exact (case-sensitive) policy,
`FastAPIEx.Settings.Reload` and `fastapiex.settings.reload` resolve to the
same value. -/
theorem C7_control_always_folded_witness :
    splitLookupPath "FastAPIEx.Settings.Reload" =
      some ["FastAPIEx", "Settings", "Reload"] ∧
    splitLookupPath "fastapiex.settings.reload" =
      some ["fastapiex", "settings", "reload"] ∧
    resolveLookupPath
        (RootVal.map [("fastapiex",
          .map [("settings", .map [("reload", .val (1 : Nat))])]), ("app", .val 2)])
        "FastAPIEx.Settings.Reload" true =
      resolveLookupPath
        (RootVal.map [("fastapiex",
          .map [("settings", .map [("reload", .val (1 : Nat))])]), ("app", .val 2)])
        "fastapiex.settings.reload" true ∧
    resolveLookupPath
        (RootVal.map [("fastapiex",
          .map [("settings", .map [("reload", .val (1 : Nat))])]), ("app", .val 2)])
        "fastapiex.settings.reload" true = some (.val 1) := by
  have h1 : splitLookupPath "FastAPIEx.Settings.Reload" =
      some ["FastAPIEx", "Settings", "Reload"] := by decide
  have h2 : splitLookupPath "fastapiex.settings.reload" =
      some ["fastapiex", "settings", "reload"] := by decide
  refine ⟨h1, h2, ?_, by decide⟩
  exact C7_control_always_folded _ true _ _ _ _ h1 h2 (by decide) (by decide)

/-! ## `env_keypath.py`: decoding `A__B__C` environment keys -/

/-- Embedding of `CONTROL_ENV_PREFIX = f"{CONTROL_ROOT.upper()}__"`. -/
def CONTROL_ENV_RESERVED : String := "FASTAPIEX__"

/-- Embedding of `key_policy.startswith_prefix`. -/
def startswithHead (value prefx : String) (caseSensitive : Bool) : Bool :=
  if caseSensitive then pyStartsWith value prefx
  else pyStartsWith (pyLower value) (pyLower prefx)

/-- The tail of `key_to_parts` after the key path has been selected: empty
key paths and empty segments are dropped, reserved keys fold every segment,
otherwise the case policy decides. -/
def keyToPartsFinish (keyPath : String) (reserved caseSensitive : Bool) :
    Option (List String) × Bool :=
  if keyPath = "" then (none, false)
  else
    let rawParts := splitDunder keyPath
    if rawParts.any (· = "") then (none, false)
    else if reserved then (some (rawParts.map pyLower), false)
    else if caseSensitive then (some rawParts, false)
    else (some (rawParts.map pyLower), false)

/-- Embedding of `key_to_parts`; the boolean result records whether the
`FASTAPIEX__* must not carry the business prefix` warning was logged. -/
def keyToParts (envKey prefx : String) (caseSensitive : Bool) :
    Option (List String) × Bool :=
  let reserved := pyStartsWith (pyUpper envKey) CONTROL_ENV_RESERVED
  if reserved then keyToPartsFinish envKey true caseSensitive
  else if prefx ≠ "" then
    if !startswithHead envKey prefx caseSensitive then (none, false)
    else
      let keyPath := pyDrop envKey (pyLength prefx)
      if pyStartsWith (pyUpper keyPath) CONTROL_ENV_RESERVED then (none, true)
      else keyToPartsFinish keyPath false caseSensitive
  else keyToPartsFinish envKey false caseSensitive

/-- C8 counterexample. Claim (a) as stated quantifies over the whole key:
`"APP____X"` splits on `__` with an empty segment, yet under the user prefix
`"APP____"` the parser accepts it (the empty-segment check runs on the
post-prefix remainder `"X"`). -/
theorem C8_counterexample :
    ((splitDunder "APP____X").any (· = "")) = true ∧
    (keyToParts "APP____X" "APP____" false).1 = some ["x"] := by decide

/-- C8, amended. (a) The empty-segment rejection applies to the key path
the parser actually splits — the key itself when no prefix applies, the
post-prefix remainder for prefixed keys (so `A____B` is silently dropped);
(b) a non-reserved key carrying the user prefix whose remainder re-encodes
the reserved control prefix is dropped with a warning; (c) a key whose
upper-casing starts with the reserved control prefix is parsed with folded
segments regardless of the prefix and case policy (subject only to the
empty-segment rule). -/
theorem C8_env_keypath (k prefx : String) (cs : Bool) :
    (pyStartsWith (pyUpper k) CONTROL_ENV_RESERVED = false →
      prefx ≠ "" →
      startswithHead k prefx cs = true →
      pyStartsWith (pyUpper (pyDrop k (pyLength prefx))) CONTROL_ENV_RESERVED = false →
      (splitDunder (pyDrop k (pyLength prefx))).any (· = "") = true →
      keyToParts k prefx cs = (none, false)) ∧
    (pyStartsWith (pyUpper k) CONTROL_ENV_RESERVED = false →
      (splitDunder k).any (· = "") = true →
      keyToParts k "" cs = (none, false)) ∧
    (pyStartsWith (pyUpper k) CONTROL_ENV_RESERVED = false →
      prefx ≠ "" →
      startswithHead k prefx cs = true →
      pyStartsWith (pyUpper (pyDrop k (pyLength prefx))) CONTROL_ENV_RESERVED = true →
      keyToParts k prefx cs = (none, true)) ∧
    (pyStartsWith (pyUpper k) CONTROL_ENV_RESERVED = true →
      keyToParts k prefx cs =
        (if (splitDunder k).any (· = "") then none
         else some ((splitDunder k).map pyLower), false)) := by
  refine ⟨?_, ?_, ?_, ?_⟩
  · intro hres hpre hsw hres2 hempty
    unfold keyToParts
    rw [if_neg (by simp [hres]), if_pos hpre, if_neg (by simp [hsw]), if_neg (by simp [hres2])]
    unfold keyToPartsFinish
    by_cases hkp : pyDrop k (pyLength prefx) = ""
    · rw [if_pos hkp]
    · rw [if_neg hkp, if_pos hempty]
  · intro hres hempty
    unfold keyToParts
    rw [if_neg (by simp [hres]), if_neg (by simp)]
    unfold keyToPartsFinish
    by_cases hk : k = ""
    · rw [if_pos hk]
    · rw [if_neg hk, if_pos hempty]
  · intro hres hpre hsw hres2
    unfold keyToParts
    rw [if_neg (by simp [hres]), if_pos hpre, if_neg (by simp [hsw]), if_pos hres2]
  · intro hres
    unfold keyToParts
    rw [if_pos (by simp [hres])]
    unfold keyToPartsFinish
    have hk : k ≠ "" := by
      intro hk
      rw [hk] at hres
      cases hres
    rw [if_neg hk]
    by_cases hempty : ((splitDunder k).any (· = "")) = true
    · rw [if_pos hempty, if_pos hempty]
    · rw [if_neg hempty, if_neg hempty, if_pos rfl]

/-- Witness for C8 (amended): a prefixed key with an empty remainder segment
is dropped, `A____B` unprefixed is dropped, `APP__FASTAPIEX__X` under prefix
`APP__` warns and drops, and a reserved key folds its segments under the
exact policy and a foreign prefix. -/
theorem C8_env_keypath_witness :
    keyToParts "APP__A____B" "APP__" false = (none, false) ∧
    keyToParts "A____B" "" false = (none, false) ∧
    keyToParts "APP__FASTAPIEX__X" "APP__" false = (none, true) ∧
    keyToParts "FastAPIEx__Settings__Reload" "APP__" true =
      (some ["fastapiex", "settings", "reload"], false) := by
  refine ⟨?_, ?_, ?_, ?_⟩
  · exact (C8_env_keypath "APP__A____B" "APP__" false).1
      (by decide) (by decide) (by decide) (by decide) (by decide)
  · exact (C8_env_keypath "A____B" "" false).2.1 (by decide) (by decide)
  · exact (C8_env_keypath "APP__FASTAPIEX__X" "APP__" false).2.2.1
      (by decide) (by decide) (by decide) (by decide)
  · have h := (C8_env_keypath "FastAPIEx__Settings__Reload" "APP__" true).2.2.2
      (by decide)
    rw [h]
    decide

/-! ## `env_value_parser.py`: the scalar parser

`json.loads` is an external collaborator and is passed in as a partial
function; a `float` result carries the normalized literal (IEEE semantics are
out of scope of this embedding); `int()` on a regex-matched normalized
literal cannot raise, so the `except ValueError` fallback is dead code.
`_INT_RE`/`_FLOAT_RE` use `\d`, modelled as ASCII digits. -/

/-- Embedding of `TRUE_TEXT_VALUES` from `constants.py` (note: it contains `"1"`). -/
def TRUE_TEXT_VALUES : List String := ["1", "true", "yes", "on"]

/-- Embedding of `FALSE_TEXT_VALUES` from `constants.py` (note: it contains `"0"`). -/
def FALSE_TEXT_VALUES : List String := ["0", "false", "no", "off"]

def NULL_TEXT_VALUES : List String := ["null", "none"]

/-- Embedding of `strip_matching_quotes`. -/
def stripMatchingQuotes (value : String) : String :=
  let cs := value.data
  if 2 ≤ cs.length ∧ cs.headD ' ' = cs.getLastD ' ' ∧
      (cs.headD ' ' = '\'' ∨ cs.headD ' ' = '"') then
    String.mk ((cs.drop 1).dropLast)
  else value

/-- Embedding of `(?:_?\d)*` after the leading digit of `\d(?:_?\d)*`. -/
def intTail : List Char → Bool
  | [] => true
  | '_' :: c :: rest => c.isDigit && intTail rest
  | c :: rest => c.isDigit && intTail rest

/-- Embedding of `\d(?:_?\d)*`. -/
def intBody : List Char → Bool
  | [] => false
  | c :: rest => c.isDigit && intTail rest

def dropSign : List Char → List Char
  | '+' :: rest => rest
  | '-' :: rest => rest
  | cs => cs

/-- Embedding of `_INT_RE`. -/
def isIntLiteral (s : String) : Bool := intBody (dropSign s.data)

/-- Split at the first `e`/`E` (mantissa, exponent). -/
def splitAtExp : List Char → List Char × Option (List Char)
  | [] => ([], none)
  | c :: rest =>
    if c = 'e' ∨ c = 'E' then ([], some rest)
    else
      let me := splitAtExp rest
      (c :: me.1, me.2)

/-- Split at the first `.`. -/
def splitAtDot : List Char → Option (List Char × List Char)
  | [] => none
  | '.' :: rest => some ([], rest)
  | c :: rest => (splitAtDot rest).map (fun pr => (c :: pr.1, pr.2))

/-- Embedding of `[+-]?\d+` (the exponent part; no underscores allowed). -/
def expPart (cs : List Char) : Bool :=
  let cs' := dropSign cs
  !cs'.isEmpty && cs'.all Char.isDigit

/-- Embedding of `(?:\d(_?\d)*)?\.\d(_?\d)* | \d(_?\d)*\.`. -/
def dottedBody (cs : List Char) : Bool :=
  match splitAtDot cs with
  | none => false
  | some (pre, post) =>
    ((pre.isEmpty || intBody pre) && intBody post) || (intBody pre && post.isEmpty)

/-- Embedding of `_FLOAT_RE`. -/
def isFloatLiteral (s : String) : Bool :=
  let cs := dropSign s.data
  match splitAtExp cs with
  | (mant, some ex) => (intBody mant || dottedBody mant) && expPart ex
  | (mant, none) => dottedBody mant

def digitsToNat (cs : List Char) : Nat :=
  cs.foldl (fun n c => n * 10 + (c.toNat - 48)) 0

/-- Python `int()` on a signed digit string. -/
def strToInt (s : String) : Int :=
  match s.data with
  | '-' :: ds => -(digitsToNat ds : Int)
  | '+' :: ds => (digitsToNat ds : Int)
  | ds => (digitsToNat ds : Int)

/-- The parsed scalar; `float` carries the normalized literal. -/
inductive EnvScalar (J : Type) where
  | str (s : String)
  | boolean (b : Bool)
  | null
  | int (n : Int)
  | float (lit : String)
  | json (j : J)
deriving DecidableEq

/-- Embedding of `parse_env_value`. -/
def parseEnvValue {J : Type} (jsonLoads : String → Option J) (raw : String) :
    EnvScalar J :=
  let stripped := pyTrim raw
  if stripped = "" then .str ""
  else
    let value := stripMatchingQuotes stripped
    let lowered := pyLower value
    if lowered ∈ TRUE_TEXT_VALUES then .boolean true
    else if lowered ∈ FALSE_TEXT_VALUES then .boolean false
    else if lowered ∈ NULL_TEXT_VALUES then .null
    else if (pyStartsWith value "\x7b" && pyEndsWith value "\x7d") ||
        (pyStartsWith value "[" && pyEndsWith value "]") then
      match jsonLoads value with
      | some j => .json j
      | none => .str value
    else
      let normalized := String.mk (value.data.filter (· ≠ '_'))
      if isIntLiteral value then .int (strToInt normalized)
      else if isFloatLiteral value then .float normalized
      else .str value

/-- C9 counterexample. `"1"` and `"0"` are members of the boolean word
sets, so `parse_env_value("1")` is the boolean `True` (not the integer `1`)
and `parse_env_value("0")` is `False` (not the integer `0`). -/
theorem C9_counterexample :
    parseEnvValue (fun _ => (none : Option Unit)) "1" = .boolean true ∧
    parseEnvValue (fun _ => (none : Option Unit)) "1" ≠ .int 1 ∧
    parseEnvValue (fun _ => (none : Option Unit)) "0" = .boolean false ∧
    parseEnvValue (fun _ => (none : Option Unit)) "0" ≠ .int 0 := by decide

/-- C9, amended. `parse_env_value` first strips whitespace and one pair
of matching surrounding quotes, then recognizes the words of
`TRUE_TEXT_VALUES = {1, true, yes, on}` as `True`, of
`FALSE_TEXT_VALUES = {0, false, no, off}` as `False` and `null`/`none` as
null, and only then parses the remaining integer and float literals (with
optional `_` digit separators) — in particular `"1"` parses to the boolean
`True` and `"0"` to `False`, not to integers. -/
theorem C9_scalar_parsing {J : Type} (jsonLoads : String → Option J) (raw : String) :
    (pyTrim raw ≠ "" →
      (pyLower (stripMatchingQuotes (pyTrim raw)) ∈ TRUE_TEXT_VALUES →
        parseEnvValue jsonLoads raw = .boolean true) ∧
      (pyLower (stripMatchingQuotes (pyTrim raw)) ∈ FALSE_TEXT_VALUES →
        parseEnvValue jsonLoads raw = .boolean false) ∧
      (pyLower (stripMatchingQuotes (pyTrim raw)) ∈ NULL_TEXT_VALUES →
        parseEnvValue jsonLoads raw = .null) ∧
      (pyLower (stripMatchingQuotes (pyTrim raw)) ∉ TRUE_TEXT_VALUES →
        pyLower (stripMatchingQuotes (pyTrim raw)) ∉ FALSE_TEXT_VALUES →
        pyLower (stripMatchingQuotes (pyTrim raw)) ∉ NULL_TEXT_VALUES →
        ((pyStartsWith (stripMatchingQuotes (pyTrim raw)) "\x7b" &&
            pyEndsWith (stripMatchingQuotes (pyTrim raw)) "\x7d") ||
          (pyStartsWith (stripMatchingQuotes (pyTrim raw)) "[" &&
            pyEndsWith (stripMatchingQuotes (pyTrim raw)) "]")) = false →
        (isIntLiteral (stripMatchingQuotes (pyTrim raw)) = true →
          parseEnvValue jsonLoads raw =
            .int (strToInt (String.mk
              ((stripMatchingQuotes (pyTrim raw)).data.filter (· ≠ '_'))))) ∧
        (isIntLiteral (stripMatchingQuotes (pyTrim raw)) = false →
          isFloatLiteral (stripMatchingQuotes (pyTrim raw)) = true →
          parseEnvValue jsonLoads raw =
            .float (String.mk
              ((stripMatchingQuotes (pyTrim raw)).data.filter (· ≠ '_')))))) ∧
    parseEnvValue jsonLoads "1" = .boolean true ∧
    parseEnvValue jsonLoads "0" = .boolean false := by
  refine ⟨?_, ?_, ?_⟩
  · intro htrim
    refine ⟨?_, ?_, ?_, ?_⟩
    · intro hT
      simp only [parseEnvValue]
      rw [if_neg htrim, if_pos hT]
    · intro hF
      have hT : pyLower (stripMatchingQuotes (pyTrim raw)) ∉ TRUE_TEXT_VALUES := by
        have : pyLower (stripMatchingQuotes (pyTrim raw)) = "0" ∨
            pyLower (stripMatchingQuotes (pyTrim raw)) = "false" ∨
            pyLower (stripMatchingQuotes (pyTrim raw)) = "no" ∨
            pyLower (stripMatchingQuotes (pyTrim raw)) = "off" := by
          simpa [FALSE_TEXT_VALUES] using hF
        rcases this with h | h | h | h <;> rw [h] <;> decide
      simp only [parseEnvValue]
      rw [if_neg htrim, if_neg hT, if_pos hF]
    · intro hN
      have hd : pyLower (stripMatchingQuotes (pyTrim raw)) = "null" ∨
          pyLower (stripMatchingQuotes (pyTrim raw)) = "none" := by
        simpa [NULL_TEXT_VALUES] using hN
      have hT : pyLower (stripMatchingQuotes (pyTrim raw)) ∉ TRUE_TEXT_VALUES := by
        rcases hd with h | h <;> rw [h] <;> decide
      have hF : pyLower (stripMatchingQuotes (pyTrim raw)) ∉ FALSE_TEXT_VALUES := by
        rcases hd with h | h <;> rw [h] <;> decide
      simp only [parseEnvValue]
      rw [if_neg htrim, if_neg hT, if_neg hF, if_pos hN]
    · intro hT hF hN hbr
      constructor
      · intro hint
        simp only [parseEnvValue]
        rw [if_neg htrim, if_neg hT, if_neg hF, if_neg hN, if_neg (by simp [hbr]),
          if_pos hint]
      · intro hint hfl
        simp only [parseEnvValue]
        rw [if_neg htrim, if_neg hT, if_neg hF, if_neg hN, if_neg (by simp [hbr]),
          if_neg (by simp [hint]), if_pos hfl]
  · simp only [parseEnvValue]
    rw [if_neg (by decide), if_pos (by decide)]
  · simp only [parseEnvValue]
    rw [if_neg (by decide), if_neg (by decide), if_pos (by decide)]

/-- Witness for C9 (amended): quoted integers, booleans, nulls, floats, and
the `1`/`0` boolean facts, at concrete inputs. -/
theorem C9_scalar_parsing_witness :
    pyTrim " \"42\" " ≠ "" ∧
    parseEnvValue (fun _ => (none : Option Unit)) " \"42\" " = .int 42 ∧
    parseEnvValue (fun _ => (none : Option Unit)) "YES" = .boolean true ∧
    parseEnvValue (fun _ => (none : Option Unit)) "none" = .null ∧
    parseEnvValue (fun _ => (none : Option Unit)) "6.02e3" = .float "6.02e3" ∧
    parseEnvValue (fun _ => (none : Option Unit)) "1_024" = .int 1024 ∧
    parseEnvValue (fun _ => (none : Option Unit)) "1" = .boolean true ∧
    parseEnvValue (fun _ => (none : Option Unit)) "0" = .boolean false := by
  have h1 : pyTrim " \"42\" " ≠ "" := by decide
  refine ⟨h1, ?_, ?_, ?_, ?_, ?_, ?_, ?_⟩
  · have h := (((C9_scalar_parsing (fun _ => (none : Option Unit)) " \"42\" ").1 h1).2.2.2
      (by decide) (by decide) (by decide) (by decide)).1 (by decide)
    rw [h]
    decide
  · exact ((C9_scalar_parsing (fun _ => (none : Option Unit)) "YES").1 (by decide)).1
      (by decide)
  · exact (((C9_scalar_parsing (fun _ => (none : Option Unit)) "none").1
      (by decide)).2.2).1 (by decide)
  · have h := (((C9_scalar_parsing (fun _ => (none : Option Unit)) "6.02e3").1
      (by decide)).2.2.2 (by decide) (by decide) (by decide) (by decide)).2
      (by decide) (by decide)
    rw [h]
    decide
  · have h := (((C9_scalar_parsing (fun _ => (none : Option Unit)) "1_024").1
      (by decide)).2.2.2 (by decide) (by decide) (by decide) (by decide)).1
      (by decide)
    rw [h]
    decide
  · exact (C9_scalar_parsing (fun _ => (none : Option Unit)) "1").2.1
  · exact (C9_scalar_parsing (fun _ => (none : Option Unit)) "0").2.2

/-! ## `controls.py`: `normalize_override_path`

Filesystem-dependent operations (`expanduser`, `resolve`, `/`) are recorded
symbolically in `PyPath`; the suffix test is computed from the written text
as `pathlib` does (the sole divergence would be an input that is exactly
`~`/`~user`, where expansion could change the final component — a
filesystem-dependent case outside this embedding). -/

inductive PyPath where
  | lit (text : String)
  | expanduser (p : PyPath)
  | resolve (p : PyPath)
  | join (p : PyPath) (seg : String)
deriving DecidableEq

/-- Embedding of `str | Path` input of `normalize_override_path`. -/
inductive RawPathInput where
  | str (s : String)
  | path (text : String)
deriving DecidableEq

/-- Embedding of `Path(text).name`: pathlib drops empty and `.` components and takes the
last remaining one. -/
def pathName (text : String) : String :=
  ((splitOnChar '/' text).filter
    (fun c => !(decide (c = "") || decide (c = ".")))).getLast?.getD ""

/-- Embedding of `Path(text).suffix`: `name[i:]` for the last `.` at `0 < i < len-1`. -/
def pathSuffix (text : String) : String :=
  let name := (pathName text).data
  match ((name.enum.filter (fun ic => ic.2 = '.')).map Prod.fst).getLast? with
  | some i => if 0 < i ∧ i + 1 < name.length then String.mk (name.drop i) else ""
  | none => ""

/-- The shared tail of `normalize_override_path` after the input became a
`Path`: directory mode resolves directly; a `.yaml`/`.yml` suffix resolves
the file itself; anything else appends `settings.yaml`. -/
def normalizeTail (path : PyPath) (text : String) (asDirectory : Bool) :
    Option PyPath :=
  if asDirectory then some (.resolve path)
  else if pyLower (pathSuffix text) ∈ [".yaml", ".yml"] then some (.resolve path)
  else some (.resolve (.join path "settings.yaml"))

/-- Embedding of `normalize_override_path`.  Note the `Path`-typed branch performs no
emptiness check (visible in the source); the claims concern the string
inputs. -/
def normalizeOverridePath : Option RawPathInput → Bool → Option PyPath
  | none, _ => none
  | some (.path t), asDirectory =>
    normalizeTail (PyPath.expanduser (.lit t)) t asDirectory
  | some (.str s), asDirectory =>
    let text := pyTrim s
    if text = "" then none
    else normalizeTail (PyPath.expanduser (.lit text)) text asDirectory

/-- C10. `normalize_override_path` returns `None` for `None`, empty and
whitespace-only string inputs; it returns the expanduser-resolved path itself
exactly when the path's suffix case-folds to `.yaml` or `.yml`; every other
non-empty path is treated as a directory: `settings.yaml` is appended before
resolving. -/
theorem C10_normalize_override_path (s : String) :
    normalizeOverridePath none false = none ∧
    (pyTrim s = "" → normalizeOverridePath (some (.str s)) false = none) ∧
    (pyTrim s ≠ "" → pyLower (pathSuffix (pyTrim s)) ∈ [".yaml", ".yml"] →
      normalizeOverridePath (some (.str s)) false =
        some (.resolve (.expanduser (.lit (pyTrim s))))) ∧
    (pyTrim s ≠ "" → pyLower (pathSuffix (pyTrim s)) ∉ [".yaml", ".yml"] →
      normalizeOverridePath (some (.str s)) false =
        some (.resolve (.join (.expanduser (.lit (pyTrim s))) "settings.yaml"))) := by
  refine ⟨rfl, ?_, ?_, ?_⟩
  · intro h
    simp only [normalizeOverridePath]
    rw [if_pos h]
  · intro h hsuf
    simp only [normalizeOverridePath]
    rw [if_neg h]
    unfold normalizeTail
    rw [if_neg (by simp), if_pos hsuf]
  · intro h hsuf
    simp only [normalizeOverridePath]
    rw [if_neg h]
    unfold normalizeTail
    rw [if_neg (by simp), if_neg hsuf]

/-- Witness for C10: a whitespace path yields `None`, `conf/app.YAML` is used
directly, a bare directory and even the dotfile `.yaml` (whose pathlib suffix
is empty) get `settings.yaml` appended. -/
theorem C10_normalize_override_path_witness :
    pyTrim "   " = "" ∧
    normalizeOverridePath (some (.str "   ")) false = none ∧
    normalizeOverridePath (some (.str " conf/app.YAML ")) false =
      some (.resolve (.expanduser (.lit "conf/app.YAML"))) ∧
    normalizeOverridePath (some (.str "confdir")) false =
      some (.resolve (.join (.expanduser (.lit "confdir")) "settings.yaml")) ∧
    normalizeOverridePath (some (.str ".yaml")) false =
      some (.resolve (.join (.expanduser (.lit ".yaml")) "settings.yaml")) := by
  refine ⟨by decide, ?_, ?_, ?_, ?_⟩
  · exact (C10_normalize_override_path "   ").2.1 (by decide)
  · have h := (C10_normalize_override_path " conf/app.YAML ").2.2.1
      (by decide) (by decide)
    rw [h]
    decide
  · have h := (C10_normalize_override_path "confdir").2.2.2 (by decide) (by decide)
    rw [h]
    decide
  · have h := (C10_normalize_override_path ".yaml").2.2.2 (by decide) (by decide)
    rw [h]
    decide

end FastapiexSettings
